import Mathlib

/-!
# Verification of the git-did repository-discovery and classification core

Shallow embedding of the JavaScript source of `git-did`:
* `src/src/shared/display/date-utils.js` (`parseDate`, `formatDate`,
  `calculateDateRange`),
* `src/src/core/rebase-detection.js` (`parseCommitsAndDetectRebases` and its
  helpers),
* `main.js` (`patternToRegex`, `shouldIgnorePath`, `hasRecentActivity`,
  `findActiveGitRepos`, and the timestamp computations of `getUserCommits`).

JavaScript numbers that hold epoch milliseconds / seconds are modelled as
`Int`; `NaN` propagation (from `parseInt` failures or invalid `Date`s) is
modelled with `Option Int` where `none` stands for `NaN` / Invalid Date, and
every JS comparison involving `NaN` is `false`, which the `jsDateLe`-style
helpers reproduce.  The ambient local timezone of the Node process is passed
explicitly as `tz`, the offset east of UTC in minutes (local clock time =
UTC + `tz` minutes); a fixed offset models the environment during one
invocation.
-/

namespace GitDid

/-! ## JavaScript string primitives

The source manipulates JavaScript strings.  The handful of operations it
uses are modelled as total functions over `List Char` / `String`, matching
the ECMAScript behaviour on the (ASCII) data the program handles.  -/

/-- Model of `String.prototype.split(sep)` for a single-character separator:
always returns at least one (possibly empty) field. -/
def jsSplitChar (sep : Char) : List Char → List (List Char)
  | [] => [[]]
  | c :: rest =>
    match jsSplitChar sep rest with
    | [] => [[]]
    | grp :: grps => if c = sep then [] :: grp :: grps else (c :: grp) :: grps

/-- `s.split(sep)` on strings. -/
def jsSplit (sep : Char) (s : String) : List String :=
  (jsSplitChar sep s.data).map String.mk

/-- Model of `String.prototype.trim` (the inputs here are ASCII, so Lean's
`Char.isWhitespace` covers exactly the whitespace that can occur). -/
def jsTrim (s : String) : String :=
  String.mk (((s.data.dropWhile Char.isWhitespace).reverse.dropWhile Char.isWhitespace).reverse)

/-- JS `s.substring(0, n)` (and `s.slice(0, n)` for `0 ≤ n`): clamps at the
end of the string. -/
def jsTake (s : String) (n : Nat) : String := String.mk (s.data.take n)

/-- JS `s.slice(n)` for `n ≥ 0`. -/
def jsDrop (s : String) (n : Nat) : String := String.mk (s.data.drop n)

/-- JS `s.slice(0, -n)` for `n ≥ 1`: drops the last `n` characters (empty
result when the string is shorter than `n`). -/
def jsDropRight (s : String) (n : Nat) : String :=
  String.mk (s.data.take (s.data.length - n))

/-- Whether the character list `p` starts the character list `s`. -/
def listStarts : List Char → List Char → Bool
  | [], _ => true
  | _, [] => false
  | p :: ps, c :: cs => p = c && listStarts ps cs

/-- JS `s.startsWith(p)`. -/
def jsStartsWith (s p : String) : Bool := listStarts p.data s.data

/-- JS `s.endsWith(p)`. -/
def jsEndsWith (s p : String) : Bool := listStarts p.data.reverse s.data.reverse

/-- JS `arr.join(sep)`. -/
def jsJoin (sep : String) : List String → String
  | [] => ""
  | [s] => s
  | s :: rest => s ++ sep ++ jsJoin sep rest

/-- Model of `parseInt(s, 10)`: skip leading whitespace, optional sign,
then the maximal run of decimal digits; `none` models `NaN`. -/
def jsParseInt (s : String) : Option Int :=
  let t := s.data.dropWhile Char.isWhitespace
  let signAndRest : Bool × List Char :=
    match t with
    | '-' :: r => (true, r)
    | '+' :: r => (false, r)
    | r => (false, r)
  let ds := signAndRest.2.takeWhile Char.isDigit
  if ds.isEmpty then none
  else
    let v : Nat := ds.foldl (fun a c => a * 10 + (c.toNat - 48)) 0
    some (if signAndRest.1 then -(v : Int) else (v : Int))

/-- Numeric value of a decimal digit character. -/
def digitVal (c : Char) : Nat := c.toNat - 48

/-- The decimal digit character for `n < 10`. -/
def digitChar (n : Nat) : Char := Char.ofNat (48 + n)

/-- JS `String(n)` for a natural number; the program only formats year
numbers (`getFullYear` of dates within the modelled range, so `≤ 9999`)
and month/day numbers with it. -/
def decimalString (n : Nat) : String :=
  if n < 10 then String.mk [digitChar n]
  else if n < 100 then String.mk [digitChar (n / 10), digitChar (n % 10)]
  else if n < 1000 then
    String.mk [digitChar (n / 100), digitChar (n / 10 % 10), digitChar (n % 10)]
  else
    String.mk [digitChar (n / 1000), digitChar (n / 100 % 10),
               digitChar (n / 10 % 10), digitChar (n % 10)]

/-- `String(n).padStart(2, '0')` as used by `formatDate`. -/
def pad2 (n : Nat) : String :=
  if n < 10 then String.mk [digitChar 0, digitChar n] else decimalString n

/-! ## Gregorian calendar arithmetic (ECMAScript `Date` internals)

`new Date("YYYY-MM-DD")` interprets the string as UTC midnight of a
proleptic-Gregorian calendar date, rejecting non-existent dates
(Invalid Date), and `getFullYear`/`getMonth`/`getDate` read the civil date
of the instant in local time.  `daysFromYear0 y` counts the days from
0000-01-01 to `y`-01-01 (the ECMAScript `DayFromYear`, shifted so that all
quantities are naturals); 1970-01-01 is day 719528 on that scale. -/

def isLeapYear (y : Nat) : Bool := (y % 4 == 0 && y % 100 != 0) || y % 400 == 0

def daysInMonth (y m : Nat) : Nat :=
  if m = 1 then 31
  else if m = 2 then (if isLeapYear y then 29 else 28)
  else if m = 3 then 31
  else if m = 4 then 30
  else if m = 5 then 31
  else if m = 6 then 30
  else if m = 7 then 31
  else if m = 8 then 31
  else if m = 9 then 30
  else if m = 10 then 31
  else if m = 11 then 30
  else if m = 12 then 31
  else 0

/-- Days from the start of the year to the start of month `m` (1-based). -/
def monthOffset (leap : Bool) (m : Nat) : Nat :=
  ([0, 31, 59, 90, 120, 151, 181, 212, 243, 273, 304, 334].getD (m - 1) 365)
    + (if leap && decide (3 ≤ m) then 1 else 0)

/-- Days from 0000-01-01 to `y`-01-01 in the proleptic Gregorian calendar. -/
def daysFromYear0 (y : Nat) : Nat :=
  365 * y + (y + 3) / 4 + (y + 399) / 400 - (y + 99) / 100

/-- Days from 0000-01-01 to `y`-`m`-`d`. -/
def absDays (y m d : Nat) : Nat :=
  daysFromYear0 y + monthOffset (isLeapYear y) m + (d - 1)

/-- Days from the Unix epoch to `y`-`m`-`d` (ECMAScript `MakeDay`). -/
def epochDays (y m d : Nat) : Int := (absDays y m d : Int) - 719528

/-- Linear scan for the year containing absolute day `n`, starting at a
lower estimate.  The fuel of 40 covers the distance between the estimate
`n / 366` and the true year for every year `≤ 9999`. -/
def findYearGo : Nat → Nat → Nat → Nat
  | 0, y, _ => y
  | fuel + 1, y, n => if daysFromYear0 (y + 1) ≤ n then findYearGo fuel (y + 1) n else y

def findYear (n : Nat) : Nat := findYearGo 40 (n / 366) n

/-- Month and day (1-based) from the day-of-year `doy` (0-based). -/
def monthFromDoy (leap : Bool) (doy : Nat) : Nat × Nat :=
  if doy < monthOffset leap 2 then (1, doy + 1)
  else if doy < monthOffset leap 3 then (2, doy - monthOffset leap 2 + 1)
  else if doy < monthOffset leap 4 then (3, doy - monthOffset leap 3 + 1)
  else if doy < monthOffset leap 5 then (4, doy - monthOffset leap 4 + 1)
  else if doy < monthOffset leap 6 then (5, doy - monthOffset leap 5 + 1)
  else if doy < monthOffset leap 7 then (6, doy - monthOffset leap 6 + 1)
  else if doy < monthOffset leap 8 then (7, doy - monthOffset leap 7 + 1)
  else if doy < monthOffset leap 9 then (8, doy - monthOffset leap 8 + 1)
  else if doy < monthOffset leap 10 then (9, doy - monthOffset leap 9 + 1)
  else if doy < monthOffset leap 11 then (10, doy - monthOffset leap 10 + 1)
  else if doy < monthOffset leap 12 then (11, doy - monthOffset leap 11 + 1)
  else (12, doy - monthOffset leap 12 + 1)

/-- Civil date (year, month, day) of absolute day number `z` counted from
the Unix epoch (valid for years 0–9999, which covers every date the
program can format). -/
def civilFromDays (z : Int) : Nat × Nat × Nat :=
  let n := (z + 719528).toNat
  let y := findYear n
  let doy := n - daysFromYear0 y
  let md := monthFromDoy (isLeapYear y) doy
  (y, md.1, md.2)

/-! ## `date-utils.js` -/

def MS_PER_DAY : Int := 86400000

/-- `formatDate` from date-utils.js: the local-time `getFullYear`,
`getMonth`+1 and `getDate` of the date value, dash-separated with the
month and day zero-padded.  `none` (Invalid Date) renders as
`"NaN-NaN-NaN"` because `String(NaN).padStart(2,'0') = "NaN"`. -/
def formatDate (tz : Int) (dv : Option Int) : String :=
  match dv with
  | none => "NaN-NaN-NaN"
  | some ms =>
    let localDay := Int.ediv (ms + tz * 60000) 86400000
    let ymd := civilFromDays localDay
    decimalString ymd.1 ++ "-" ++ pad2 ymd.2.1 ++ "-" ++ pad2 ymd.2.2

/-- A decimal digit character (code points 48–57), the characters `\d`
matches. -/
def isDigitChar (c : Char) : Bool := 48 ≤ c.toNat && c.toNat ≤ 57

/-- The test of the date regex (`^` four digits `-` two digits `-` two
digits `$`) together with the digit values it guarantees: `some (y, m, d)`
iff the string is exactly four digits, dash, two digits, dash, two
digits. -/
def dateDigits (s : String) : Option (Nat × Nat × Nat) :=
  match s.data with
  | [a, b, c, d, '-', e, f, '-', g, h] =>
    if ([a, b, c, d, e, f, g, h].all isDigitChar) then
      some (digitVal a * 1000 + digitVal b * 100 + digitVal c * 10 + digitVal d,
            digitVal e * 10 + digitVal f,
            digitVal g * 10 + digitVal h)
    else none
  | _ => none

/-- The `YYYY-MM-DD` rendering of a civil date, as `formatDate` produces
it for four-digit years. -/
def renderDate (y m d : Nat) : String :=
  decimalString y ++ "-" ++ pad2 m ++ "-" ++ pad2 d

/-- Model of `new Date(s)` for a string of shape `YYYY-MM-DD`: V8 accepts
exactly the existing proleptic-Gregorian calendar dates (UTC midnight) and
yields Invalid Date otherwise (e.g. `"2025-02-30"`). -/
def jsDateParseIso (s : String) : Option Int :=
  match dateDigits s with
  | none => none
  | some (y, m, d) =>
    if 1 ≤ m ∧ m ≤ 12 ∧ 1 ≤ d ∧ d ≤ daysInMonth y m then
      some (epochDays y m d * 86400000)
    else none

/-- `parseDate` from date-utils.js: regex shape test, `new Date`, `isNaN`
test, then the round-trip comparison `formatDate(date) !== dateString`. -/
def parseDate (tz : Int) (dateString : String) : Option Int :=
  match dateDigits dateString with
  | none => none
  | some _ =>
    match jsDateParseIso dateString with
    | none => none
    | some ms => if formatDate tz (some ms) = dateString then some ms else none

inductive DateRangeError where
  | invalidSinceFormat
  | invalidUntilFormat
  | invalidRange
deriving DecidableEq, Repr

structure DateRange where
  since : Option Int
  untl : Option Int
  sinceStr : String
  untilStr : String
deriving DecidableEq, Repr

/-- JS truthiness of an optional string option (`undefined` and `""` are
falsy). -/
def provided : Option String → Option String
  | some s => if s = "" then none else some s
  | none => none

/-- JS `>` on two `Date` values; any comparison involving `NaN` is false. -/
def jsDateGt (a b : Option Int) : Bool :=
  match a, b with
  | some x, some y => decide (x > y)
  | _, _ => false

/-- JS `<=` on two `Date` values; any comparison involving `NaN` is false. -/
def jsDateLe (a b : Option Int) : Bool :=
  match a, b with
  | some x, some y => decide (x ≤ y)
  | _, _ => false

/-- `calculateDateRange` from date-utils.js.  `nowMs` models `new Date()`;
`days` is `undefined` (`none`) when the caller did not supply it, in which
case `days * MS_PER_DAY` is `NaN` and the computed since date is Invalid. -/
def calculateDateRange (tz nowMs : Int) (days : Option Int)
    (since untl : Option String) : Except DateRangeError DateRange :=
  let sinceStep : Except DateRangeError (Option Int) :=
    match provided since with
    | some s =>
      match parseDate tz s with
      | none => Except.error DateRangeError.invalidSinceFormat
      | some ms => Except.ok (some ms)
    | none => Except.ok none
  match sinceStep with
  | Except.error e => Except.error e
  | Except.ok sParsed =>
    let untilStep : Except DateRangeError Int :=
      match provided untl with
      | some u =>
        match parseDate tz u with
        | none => Except.error DateRangeError.invalidUntilFormat
        | some ms => Except.ok ms
      | none => Except.ok nowMs
    match untilStep with
    | Except.error e => Except.error e
    | Except.ok untilMs =>
      let sinceD : Option Int :=
        match sParsed with
        | some ms => some ms
        | none =>
          match days with
          | some dcount => some (untilMs - dcount * MS_PER_DAY)
          | none => none
      if jsDateGt sinceD (some untilMs) then Except.error DateRangeError.invalidRange
      else
        Except.ok { since := sinceD, untl := some untilMs,
                    sinceStr := formatDate tz sinceD,
                    untilStr := formatDate tz (some untilMs) }

/-! ## Timestamp bounds computed by `getUserCommits` (main.js)

`getUserCommits` turns the formatted `sinceStr` / `untilStr` of the
resolved range back into Unix seconds:
`sinceTimestamp = new Date(sinceDate).getTime() / 1000` (date-only string,
hence UTC midnight) and
`untilTimestamp = new Date(untilDate + 'T23:59:59').getTime() / 1000`
(date-time string without timezone designator, hence local time). -/

/-- `new Date(s).getTime() / 1000` for the date-only string `s`. -/
def getUserCommitsSinceTs (s : String) : Option Int :=
  (jsDateParseIso s).map (fun ms => Int.ediv ms 1000)

/-- Model of `new Date(s + "T23:59:59")` for `s` of shape `YYYY-MM-DD`:
the local instant 23:59:59 of that calendar day. -/
def jsDateParseLocalEndOfDay (tz : Int) (s : String) : Option Int :=
  match dateDigits s with
  | none => none
  | some (y, m, d) =>
    if 1 ≤ m ∧ m ≤ 12 ∧ 1 ≤ d ∧ d ≤ daysInMonth y m then
      some (epochDays y m d * 86400000 + 86399000 - tz * 60000)
    else none

/-- `new Date(untilDate + 'T23:59:59').getTime() / 1000`. -/
def getUserCommitsUntilTs (tz : Int) (s : String) : Option Int :=
  (jsDateParseLocalEndOfDay tz s).map (fun ms => Int.ediv ms 1000)

/-! ## `hasRecentActivity` (main.js)

`getLastCommitDate` runs `git log -1 --format=%at|%ct`; a failure yields
`{authorDate: null, commitDate: null}`, modelled as the outer `none`.  A
successful run yields two `Date`s built from `parseInt` results (the inner
`Option Int`s are their millisecond values, `none` = Invalid Date). -/

def hasRecentActivityCore (lastCommit : Option (Option Int × Option Int))
    (sinceD untilD : Option Int) : Bool :=
  match lastCommit with
  | none => false
  | some (aD, cD) =>
    (jsDateLe sinceD aD && jsDateLe aD untilD) ||
    (jsDateLe sinceD cD && jsDateLe cD untilD)

/-! ## `rebase-detection.js` -/

/-- The per-commit record produced by the parsing step of
`parseCommitsAndDetectRebases` (one `git log` line of format
`%h|%s|%as|%at|%aI|%cs|%ct|%cI`). -/
structure RawCommit where
  hash : String
  message : String
  date : String
  time : String
  timestamp : Option Int
  commitDate : String
  commitTimestamp : Option Int
  commitIsoDate : String
  isRebase : Bool
  authorInRange : Bool
  commitInRange : Bool
deriving DecidableEq, Repr

/-- `isRebasedCommit` from rebase-detection.js with its default threshold of
86400 seconds; `none` timestamps propagate `NaN`, and `NaN > threshold` is
false. -/
def isRebasedCommit (authorTimestamp commitTimestamp : Option Int) : Bool :=
  match authorTimestamp, commitTimestamp with
  | some a, some c => decide ((c - a).natAbs > 86400)
  | _, _ => false

/-- JS `sinceTimestamp <= t && t <= untilTimestamp` on a possibly-`NaN`
timestamp. -/
def tsInRange (t : Option Int) (sinceTs untilTs : Int) : Bool :=
  match t with
  | some v => decide (sinceTs ≤ v) && decide (v ≤ untilTs)
  | none => false

/-- The body of the `.map` in `parseCommitsAndDetectRebases`: parse one log
line.  Field layout: `parts[0]` hash, `parts[2]`/`parts[3]`/`parts[4]`
author date / author timestamp / author ISO time (fixed head offsets),
`parts[len-3]`/`parts[len-2]`/`parts[len-1]` commit date / commit
timestamp / commit ISO time, message = `parts.slice(1, -6).join('|')`.
The result is `none` when the JS code throws a `TypeError`, which happens
exactly when `parts[4]` is `undefined` (fewer than five fields) or when
`parts[4].split('T')[1]` is `undefined` (no `'T'` in that field), since
`.substring` is then called on `undefined`. -/
def parseCommitLine (sinceTs untilTs : Int) (line : String) : Option RawCommit :=
  let parts := jsSplit '|' line
  let len := parts.length
  let hash := parts.getD 0 ""
  let date := parts.getD 2 ""
  let timestamp := jsParseInt (parts.getD 3 "")
  match parts.get? 4 with
  | none => none
  | some authorIsoDate =>
    let commitDate := parts.getD (len - 3) ""
    let commitTimestamp := jsParseInt (parts.getD (len - 2) "")
    let commitIsoDate := parts.getD (len - 1) ""
    let message := jsJoin "|" ((parts.drop 1).take (len - 7))
    match (jsSplit 'T' authorIsoDate).get? 1 with
    | none => none
    | some tpart =>
      let time := jsTake tpart 5
      some { hash := hash, message := message, date := date, time := time,
             timestamp := timestamp,
             commitDate := commitDate, commitTimestamp := commitTimestamp,
             commitIsoDate := commitIsoDate,
             isRebase := isRebasedCommit timestamp commitTimestamp,
             authorInRange := tsInRange timestamp sinceTs untilTs,
             commitInRange := tsInRange commitTimestamp sinceTs untilTs }

/-- `filterCommitsByDateRange` from rebase-detection.js.  The JS function
receives the field *name* and reads `commit[dateField]`; the selector is
passed as a function here.  Its `sinceTimestamp`/`untilTimestamp`
parameters are unused in the source as well. -/
def filterCommitsByDateRange (commits : List RawCommit) (sinceTs untilTs : Int)
    (dateField : RawCommit → Bool) : List RawCommit :=
  let _ := sinceTs
  let _ := untilTs
  commits.filter dateField

/-- Append commit `c` to the group of its key inside the accumulator,
creating the key at the end on first sight — JS object insertion-order
semantics for the non-numeric keys used here. -/
def groupInsert (key : String) (c : RawCommit) :
    List (String × List RawCommit) → List (String × List RawCommit)
  | [] => [(key, [c])]
  | (k, l) :: rest =>
    if k = key then (k, l ++ [c]) :: rest else (k, l) :: groupInsert key c rest

/-- `groupCommitsByDate` from rebase-detection.js (a `reduce` building an
object keyed by `dateExtractor commit`). -/
def groupCommitsByDate (commits : List RawCommit) (dateExtractor : RawCommit → String) :
    List (String × List RawCommit) :=
  commits.foldl (fun acc c => groupInsert (dateExtractor c) c acc) []

structure RebaseSummary where
  commitDate : String
  commitTime : String
  count : Nat
  firstAuthorDate : String
  lastAuthorDate : String
  commits : List (String × String × String)
deriving DecidableEq, Repr

/-- Lexicographic code-point comparison of character lists — the order the
default `Array.prototype.sort()` comparator induces on the (ASCII) strings
the program sorts. -/
def jsStrLtChars : List Char → List Char → Bool
  | [], [] => false
  | [], _ :: _ => true
  | _ :: _, [] => false
  | a :: as, b :: bs =>
    if a.toNat < b.toNat then true
    else if b.toNat < a.toNat then false
    else jsStrLtChars as bs

def jsStrLe (a b : String) : Bool := !(jsStrLtChars b.data a.data)

/-- Stable insertion step for `jsSort`. -/
def jsSortInsert (a : String) : List String → List String
  | [] => [a]
  | b :: l => if jsStrLe a b then a :: b :: l else b :: jsSortInsert a l

/-- Model of `Array.prototype.sort()` with the default comparator on
strings: a stable sort by code-unit order. -/
def jsSort (l : List String) : List String :=
  l.foldr jsSortInsert []

/-- `createRebaseSummary` from activity-entry.js: validates its fields with
JS truthiness (`0` and `""` are falsy) and throws otherwise (`none`). -/
def createRebaseSummary (commitDate commitTime : String) (count : Nat)
    (firstAuthorDate lastAuthorDate : String)
    (commits : List (String × String × String)) : Option RebaseSummary :=
  if count < 1 ∨ commitDate = "" ∨ commitTime = "" ∨
      firstAuthorDate = "" ∨ lastAuthorDate = "" then none
  else
    some { commitDate := commitDate, commitTime := commitTime, count := count,
           firstAuthorDate := firstAuthorDate, lastAuthorDate := lastAuthorDate,
           commits := commits }

/-- The body of the `.map` inside `createRebaseSummaries`: one summary for
one `(commitDate, commits)` group; `firstDate`/`lastDate` are
`authorDates[0]` and `authorDates[length-1]` of the string-sorted author
dates, and `commitTime` comes from the first commit of the group
(`commits[0].commitIsoDate.split('T')[1].substring(0, 5)`, a thrown
`TypeError` modelled as `none`). -/
def summarizeGroup (grp : String × List RawCommit) : Option RebaseSummary :=
  let commits := grp.2
  let authorDates := jsSort (commits.map (fun c => c.date))
  let firstDate := authorDates.getD 0 ""
  let lastDate := authorDates.getD (authorDates.length - 1) ""
  match commits.get? 0 with
  | none => none
  | some firstCommit =>
    match (jsSplit 'T' firstCommit.commitIsoDate).get? 1 with
    | none => none
    | some tpart =>
      createRebaseSummary grp.1 (jsTake tpart 5) commits.length
        firstDate lastDate
        (commits.map (fun c => (c.hash, c.date, c.message)))

/-- `createRebaseSummaries` from rebase-detection.js. -/
def createRebaseSummaries (rebasesByDate : List (String × List RawCommit)) :
    Option (List RebaseSummary) :=
  rebasesByDate.mapM summarizeGroup

/-- The classification pipeline of `parseCommitsAndDetectRebases` after the
per-line parse: individual commits, rebased commits, grouping, summaries. -/
def classifyCommits (allCommits : List RawCommit) (sinceTs untilTs : Int) :
    Option (List RawCommit × List RebaseSummary) :=
  let commits := filterCommitsByDateRange allCommits sinceTs untilTs
    (fun c => c.authorInRange)
  let rebasedCommits := allCommits.filter
    (fun c => c.isRebase && c.commitInRange && !c.authorInRange)
  let rebasesByDate := groupCommitsByDate rebasedCommits (fun c => c.commitDate)
  match createRebaseSummaries rebasesByDate with
  | none => none
  | some summaries => some (commits, summaries)

/-- `parseCommitsAndDetectRebases` from rebase-detection.js.  `none`
models a thrown exception (the function itself has no try/catch; its
caller `getUserCommits` catches and returns empty results). -/
def parseCommitsAndDetectRebases (stdout : String) (sinceTs untilTs : Int) :
    Option (List RawCommit × List RebaseSummary) :=
  if jsTrim stdout = "" then some ([], [])
  else
    match (jsSplit '\n' (jsTrim stdout)).mapM (parseCommitLine sinceTs untilTs) with
    | none => none
    | some allCommits => classifyCommits allCommits sinceTs untilTs

/-- The parsed commit list underlying `parseCommitsAndDetectRebases` (the
`allCommits` of the source; `[]` for blank output). -/
def parsedCommits (stdout : String) (sinceTs untilTs : Int) : Option (List RawCommit) :=
  if jsTrim stdout = "" then some []
  else (jsSplit '\n' (jsTrim stdout)).mapM (parseCommitLine sinceTs untilTs)

/-! ## `patternToRegex` / `shouldIgnorePath` (main.js)

`patternToRegex` builds a regex *string* and hands it to `new RegExp`:
escape the metacharacters `. + ^ $ { } ( ) | [ ] \` (note: `/` is *not*
escaped), replace `*` by `.*` and `?` by `.`; if the pattern ends in `/`,
chop the last **two** characters of the built string, append `(/.*)?$`;
otherwise append `(/.*)?$`; if the pattern starts with `/`, drop the first
**two** characters of the built string and prepend `^`, else prepend
`(^|/)`.  A `SyntaxError` from `new RegExp` is caught and the pattern
dropped (`none`).

The regex strings this construction can produce are parsed into a small
AST (`CompiledRx`) and matched with ECMAScript semantics: `test` succeeds
iff some substring matches, which for these strings means a match starting
at the beginning (`^`) or — for the `(^|/)` form — also right after any
`/`, always ending at the end of the path with an optional `/`-suffix
(`(/.*)?$`).  Strings outside the recognised fragment (broken escapes or
stray group characters produced by the chopping, which `new RegExp` would
also reject) map to `none`. -/

/-- The characters escaped by `.replace(/[.+^${}()|[\]\\]/g, '\\$&')`
(braces written numerically to keep them out of source literals). -/
def isRegexMeta (c : Char) : Bool :=
  c = '.' || c = '+' || c = '^' || c = '$' || c = Char.ofNat 123 ||
  c = Char.ofNat 125 || c = '(' || c = ')' || c = '|' || c = '[' ||
  c = ']' || c = '\\'

/-- The escape-and-wildcard phase of `patternToRegex`.  The three
`.replace` calls act on disjoint characters (`*` and `?` are not in the
escape class and the escaping inserts no `*`/`?`/metacharacters that the
later passes would touch), so a single left-to-right pass is equivalent. -/
def escapeAndWildcards (pattern : String) : String :=
  String.mk (pattern.data.foldr
    (fun c acc =>
      if c = '*' then '.' :: '*' :: acc
      else if c = '?' then '.' :: acc
      else if isRegexMeta c then '\\' :: c :: acc
      else c :: acc) [])

/-- The regex source string built by `patternToRegex`. -/
def patternToRegexString (pattern : String) : String :=
  let base := escapeAndWildcards pattern
  let withSuffix :=
    if jsEndsWith pattern "/" then jsDropRight base 2 ++ "(/.*)?$"
    else base ++ "(/.*)?$"
  if jsStartsWith pattern "/" then "^" ++ jsDrop withSuffix 2
  else "(^|/)" ++ withSuffix

inductive RAtom where
  | lit (c : Char)
  | dot
deriving DecidableEq, Repr

inductive RQuant where
  | one
  | star
  | opt
deriving DecidableEq, Repr

/-- Compiled form of the regex strings `patternToRegex` produces:
`anchored` distinguishes the `^…` from the `(^|/)…` form; `middle` is the
token list before the final `(/.*)?$`. -/
structure CompiledRx where
  anchored : Bool
  middle : List (RAtom × RQuant)
deriving DecidableEq, Repr

/-- Characters that cannot stand bare inside the middle of one of these
regexes without changing its grouping (`new RegExp` would reject the
strings in which the chopping produces them, e.g. an unmatched `)`). -/
def isBareForbidden (c : Char) : Bool :=
  c = '(' || c = ')' || c = '|' || c = '^' || c = '$' || c = '*' || c = '?'

/-- The character list of the fixed suffix `(/.*)?$`. -/
def rxSuffixChars : List Char := ['(', '/', '.', '*', ')', '?', '$']

/-- Attach an optional quantifier to the atom just read; `k` continues the
parse on the remaining characters. -/
def rxAttachQuant (a : RAtom) (rest : List Char)
    (k : List Char → Option (List (RAtom × RQuant))) :
    Option (List (RAtom × RQuant)) :=
  match rest with
  | '*' :: r => (k r).map (fun items => (a, RQuant.star) :: items)
  | '?' :: r => (k r).map (fun items => (a, RQuant.opt) :: items)
  | r => (k r).map (fun items => (a, RQuant.one) :: items)

/-- Parse the middle tokens up to the fixed `(/.*)?$` suffix.  The fuel is
structural bookkeeping only: every step consumes at least one character,
so `cs.length + 1` never runs out (the fuel-0 branch is unreachable). -/
def parseRxItemsGo : Nat → List Char → Option (List (RAtom × RQuant))
  | 0, _ => none
  | fuel + 1, cs =>
    if cs = rxSuffixChars then some []
    else
      match cs with
      | [] => none
      | '\\' :: c :: rest => rxAttachQuant (RAtom.lit c) rest (parseRxItemsGo fuel)
      | '.' :: rest => rxAttachQuant RAtom.dot rest (parseRxItemsGo fuel)
      | c :: rest =>
        if isBareForbidden c then none
        else rxAttachQuant (RAtom.lit c) rest (parseRxItemsGo fuel)

def parseRxItems (cs : List Char) : Option (List (RAtom × RQuant)) :=
  parseRxItemsGo (cs.length + 1) cs

/-- Parse a full regex string built by `patternToRegexString`. -/
def parseRegexString (s : String) : Option CompiledRx :=
  if jsStartsWith s "^" then
    (parseRxItems (s.data.drop 1)).map (fun items => ⟨true, items⟩)
  else if jsStartsWith s "(^|/)" then
    (parseRxItems (s.data.drop 5)).map (fun items => ⟨false, items⟩)
  else none

/-- `patternToRegex` from main.js (`none` = the `catch` branch: warn and
drop the pattern). -/
def patternToRegex (pattern : String) : Option CompiledRx :=
  parseRegexString (patternToRegexString pattern)

/-- Does atom `a` match character `c`?  ECMAScript `.` matches everything
except line terminators. -/
def ratomMatch (a : RAtom) (c : Char) : Bool :=
  match a with
  | RAtom.lit l => c = l
  | RAtom.dot => !(c = '\n' || c = '\r')

/-- Match the middle tokens against `s`; on exhaustion the remainder must
satisfy the `(/.*)?$` suffix: be empty or start with `/`.  Every recursive
call shrinks `items.length + s.length`, so fuel `items.length + s.length + 1`
never runs out (the fuel-0 branch is unreachable). -/
def matchMiddleGo : Nat → List (RAtom × RQuant) → List Char → Bool
  | 0, _, _ => false
  | _ + 1, [], [] => true
  | _ + 1, [], c :: _ => c = '/'
  | _ + 1, (_, RQuant.one) :: _, [] => false
  | fuel + 1, (a, RQuant.one) :: rest, c :: t =>
    ratomMatch a c && matchMiddleGo fuel rest t
  | fuel + 1, (a, RQuant.opt) :: rest, s =>
    matchMiddleGo fuel rest s ||
      (match s with
       | c :: t => ratomMatch a c && matchMiddleGo fuel rest t
       | [] => false)
  | fuel + 1, (a, RQuant.star) :: rest, s =>
    matchMiddleGo fuel rest s ||
      (match s with
       | c :: t => ratomMatch a c && matchMiddleGo fuel ((a, RQuant.star) :: rest) t
       | [] => false)

def matchMiddle (items : List (RAtom × RQuant)) (s : List Char) : Bool :=
  matchMiddleGo (items.length + s.length + 1) items s

/-- Try a match beginning right after each `/` of the input. -/
def matchAfterSlash (items : List (RAtom × RQuant)) : List Char → Bool
  | [] => false
  | c :: t => (c = '/' && matchMiddle items t) || matchAfterSlash items t

/-- `regex.test(path)` for a compiled pattern. -/
def rxTest (r : CompiledRx) (path : String) : Bool :=
  if r.anchored then matchMiddle r.middle path.data
  else matchMiddle r.middle path.data || matchAfterSlash r.middle path.data

/-- `shouldIgnorePath` from main.js: `ignoreRegexes.some(r => r.test(path))`. -/
def shouldIgnorePath (path : String) (ignoreRegexes : List CompiledRx) : Bool :=
  ignoreRegexes.any (fun r => rxTest r path)

/-! ## `findActiveGitRepos` (main.js)

The filesystem is modelled as the tree of *real* directories reachable
from the scan root.  Real directory hard links do not exist, so this
structure is a tree; symbolic links (whatever they point at, including
ancestors, which is how cycles arise) and plain files appear in `readdir`
listings as entries whose `Dirent.isDirectory()` is `false`, which is all
the scanner ever observes of them — it filters on `isDirectory()` before
recursing, so link targets are never followed.  They are kept in the
model (`others`, a symlink carrying its target path) to express that the
scan's behaviour is independent of them.

Per-directory fields model the outcomes of the external calls:
`statOk` — `stat(dirPath)` succeeds; `readdirOk` — `readdir` succeeds;
`hasGit` — `isGitRepository` (the `.git` subdirectory exists);
`lastCommit` — the result of `getLastCommitDate` (`none` = the `git log`
subprocess failed, else the two parsed `Date` values).

Paths are lists of entry names (root = `[]`); since real file names cannot
contain `'/'`, `join` is injective on them and list equality coincides
with the string equality the JS `Set` of visited paths uses.  The
`Promise.all` fan-out is sequentialised left-to-right; sibling paths are
distinct, so no interleaving of the shared visited set can differ on the
values modelled here. -/

mutual
inductive FSTree : Type where
  | node (statOk readdirOk hasGit : Bool)
         (lastCommit : Option (Option Int × Option Int))
         (children : FSForest)
         (others : List (String × Option (List String))) : FSTree
inductive FSForest : Type where
  | nil : FSForest
  | cons (name : String) (t : FSTree) (rest : FSForest) : FSForest
end

mutual
/-- `findActiveGitRepos` from main.js, returning the accumulated result
list together with the final visited set (new entries at the front).
`relPath` is the path of the current directory relative to the scan root;
`relative(rootPath, dirPath)` is its `/`-join. -/
def findActiveGitRepos (t : FSTree) (sinceD untilD : Option Int)
    (visited : List (List String)) (relPath : List String)
    (ignoreRegexes : List CompiledRx) :
    List (List String) × List (List String) :=
  match t with
  | FSTree.node statOk readdirOk hasGit lastCommit children _ =>
    if !statOk then ([], visited)
    else if relPath ∈ visited then ([], visited)
    else
      let visited1 := relPath :: visited
      if !relPath.isEmpty && shouldIgnorePath (jsJoin "/" relPath) ignoreRegexes then
        ([], visited1)
      else if hasGit then
        ((if hasRecentActivityCore lastCommit sinceD untilD then [relPath] else []),
         visited1)
      else if !readdirOk then ([], visited1)
      else scanChildren children sinceD untilD visited1 relPath ignoreRegexes

/-- The per-entry fan-out of `findActiveGitRepos`: recurse into every
non-hidden real subdirectory, concatenating results. -/
def scanChildren (k : FSForest) (sinceD untilD : Option Int)
    (visited : List (List String)) (relPath : List String)
    (ignoreRegexes : List CompiledRx) :
    List (List String) × List (List String) :=
  match k with
  | FSForest.nil => ([], visited)
  | FSForest.cons name sub rest =>
    if jsStartsWith name "." then
      scanChildren rest sinceD untilD visited relPath ignoreRegexes
    else
      let r1 := findActiveGitRepos sub sinceD untilD visited (relPath ++ [name]) ignoreRegexes
      let r2 := scanChildren rest sinceD untilD r1.2 relPath ignoreRegexes
      (r1.1 ++ r2.1, r2.2)
end

/-- First real subdirectory entry with the given name. -/
def findDirChild : FSForest → String → Option FSTree
  | FSForest.nil, _ => none
  | FSForest.cons n t rest, name => if n = name then some t else findDirChild rest name

/-- The directory node reached from `t` by following the named real
subdirectories along the path. -/
def subtreeAt : List String → FSTree → Option FSTree
  | [], t => some t
  | n :: rest, FSTree.node _ _ _ _ children _ =>
    match findDirChild children n with
    | some sub => subtreeAt rest sub
    | none => none

/-- Names of the real subdirectory entries of a forest. -/
def forestNames : FSForest → List String
  | FSForest.nil => []
  | FSForest.cons n _ rest => n :: forestNames rest

mutual
/-- Well-formedness of a modelled tree: within each directory the real
subdirectory names are distinct (as they are on a real filesystem). -/
def treeWF : FSTree → Bool
  | FSTree.node _ _ _ _ children _ =>
    decide (forestNames children).Nodup && forestWF children
def forestWF : FSForest → Bool
  | FSForest.nil => true
  | FSForest.cons _ t rest => treeWF t && forestWF rest
end

/-- `q` lies strictly below `p` in the directory tree. -/
def strictBelow (q p : List String) : Prop := ∃ r, r ≠ [] ∧ q = p ++ r

/-- The `hasGit` field of a directory node. -/
def FSTree.hasGit : FSTree → Bool
  | FSTree.node _ _ g _ _ _ => g

/-! ## Spec-side predicates -/

/-- A strict `YYYY-MM-DD` calendar date string, following the
specification's words: the exact four-digit/two-digit/two-digit shape and
an existing proleptic-Gregorian calendar date. -/
def IsStrictCalendarDateString (s : String) : Prop :=
  ∃ y m d, dateDigits s = some (y, m, d) ∧
    1 ≤ m ∧ m ≤ 12 ∧ 1 ≤ d ∧ d ≤ daysInMonth y m

/-- The date strings the resolver actually accepts (in an environment with
timezone offset in `[0, 1440)` minutes): strict calendar dates whose year
renders back to four digits, i.e. year at least 1000. -/
def IsAcceptedDateString (s : String) : Prop :=
  ∃ y m d, dateDigits s = some (y, m, d) ∧
    1 ≤ m ∧ m ≤ 12 ∧ 1 ≤ d ∧ d ≤ daysInMonth y m ∧ 1000 ≤ y

/-- Did `calculateDateRange` fail with one of the two "Invalid … date
format" errors? -/
def isInvalidFormatError : Except DateRangeError DateRange → Bool
  | Except.error DateRangeError.invalidSinceFormat => true
  | Except.error DateRangeError.invalidUntilFormat => true
  | _ => false

/-! ## Concrete inputs used in the claim theorems -/

/-- A last-commit result with both timestamps at 1000 ms. -/
def wLast : Option (Option Int × Option Int) := some (some 1000, some 1000)

/-- An active repository nested inside `wRepoA`. -/
def wRepoB : FSTree := FSTree.node true true true wLast FSForest.nil []

/-- An active repository containing the nested repository `wRepoB`. -/
def wRepoA : FSTree := FSTree.node true true true wLast (FSForest.cons "b" wRepoB FSForest.nil) []

/-- A scan root containing `wRepoA` and a symlink entry. -/
def wRoot : FSTree :=
  FSTree.node true true false none (FSForest.cons "a" wRepoA FSForest.nil) [("loop", some [])]

/-- Two-commit `git log` output used for C5: both commits authored outside
the window (2025-01-01 and 2025-01-02, 10:00 UTC) and recorded inside it
(2025-01-15), with a commit-minus-author difference far above one day. -/
def c5Stdout : String :=
  "abc1111|First change|2025-01-01|1735725600|2025-01-01T10:00:00+00:00|2025-01-15|1736935200|2025-01-15T10:00:00+00:00"
  ++ "\n" ++
  "abc2222|Second change|2025-01-02|1735812000|2025-01-02T10:00:00+00:00|2025-01-15|1736935210|2025-01-15T10:00:00+00:00"

/-- A raw log line whose subject contains `|` characters (subject
`fix: a|b|c|dT12:00 subject`, five fields after splitting), with author
date 2025-01-01, author timestamp 1735725600, commit date 2025-01-15,
commit timestamp 1736935200. -/
def c6Line : String :=
  "abc1234|fix: a|b|c|dT12:00 subject|2025-01-01|1735725600|2025-01-01T10:00:00+00:00|2025-01-15|1736935200|2025-01-15T10:00:00+00:00"

/-- A raw log line whose subject contains a single `|` (`fix: a|b`). -/
def c6LineShort : String :=
  "abc9999|fix: a|b|2025-01-01|1735725600|2025-01-01T10:00:00+00:00|2025-01-15|1736935200|2025-01-15T10:00:00+00:00"

end GitDid

namespace GitDid

/-! # Claim theorems -/

set_option maxRecDepth 100000 in
/-- C5: for two commits authored 2025-01-01 and 2025-01-02, both recorded
2025-01-15, classified against the window [2025-01-10, 2025-01-20]
(Unix seconds 1736467200 to 1737417599, the end of the until day),
classification returns zero individual commits and exactly one
RebaseSummary with count 2, firstAuthorDate 2025-01-01, lastAuthorDate
2025-01-02 and commitDate 2025-01-15 (the string-sorted min/max of the
folded commits' authored dates). -/
theorem C5_two_rebased_commits_fold_into_one_summary :
    parseCommitsAndDetectRebases c5Stdout 1736467200 1737417599 =
      some ([],
        [{ commitDate := "2025-01-15", commitTime := "10:00", count := 2,
           firstAuthorDate := "2025-01-01", lastAuthorDate := "2025-01-02",
           commits := [("abc1111", "2025-01-01", "First change"),
                       ("abc2222", "2025-01-02", "Second change")] }]) := by
  decide

set_option maxRecDepth 100000 in
/-- C6: the parser reassembles the subject and reads the commit-side
fields from the tail, but it reads the author fields at the fixed head
indices 2–4, so with `|` in the subject the parsed author date is a
subject fragment (`"b"`, not `"2025-01-01"`), the author timestamp fails
to parse (`NaN`), and for the typical piped subject the time-of-day
extraction throws (modelled as `none`): the claim's equality of the
parsed author fields with the original fields fails. -/
theorem C6_piped_subject_corrupts_author_fields :
    parseCommitLine 1736467200 1737417599 c6Line =
      some { hash := "abc1234", message := "fix: a|b|c|dT12:00 subject",
             date := "b", time := "12:00", timestamp := none,
             commitDate := "2025-01-15", commitTimestamp := some 1736935200,
             commitIsoDate := "2025-01-15T10:00:00+00:00",
             isRebase := false, authorInRange := false, commitInRange := true } ∧
    parseCommitLine 1736467200 1737417599 c6LineShort = none := by
  exact ⟨by decide, by decide⟩

/-- C2: with the README's own pattern `node_modules/`, the compiled matcher
is `(^|/)node_module(/.*)?$` — `slice(0, -2)` removes two characters while
`/` was never escaped — so the directory `node_modules` is *not* excluded,
while directories named `node_module` (and their subtrees) are. -/
theorem C2_directory_pattern_excludes_wrong_name :
    patternToRegexString "node_modules/" = "(^|/)node_module(/.*)?$" ∧
    (patternToRegex "node_modules/").map
        (fun r => (shouldIgnorePath "node_modules" [r],
                   shouldIgnorePath "node_modules/pkg" [r],
                   shouldIgnorePath "node_module" [r],
                   shouldIgnorePath "a/node_module/b" [r])) =
      some (false, false, true, true) := by
  exact ⟨rfl, by decide⟩

/-- C3: with the leading-slash pattern `/dist`, the compiled matcher is
`^ist(/.*)?$` — `slice(2)` removes two characters although the leading `/`
occupies only one — so the root-relative path `dist` is *not* excluded,
while `ist` and `ist/sub` are. -/
theorem C3_anchored_pattern_drops_extra_character :
    patternToRegexString "/dist" = "^ist(/.*)?$" ∧
    (patternToRegex "/dist").map
        (fun r => (shouldIgnorePath "dist" [r],
                   shouldIgnorePath "dist/sub" [r],
                   shouldIgnorePath "ist" [r],
                   shouldIgnorePath "ist/sub" [r])) =
      some (false, false, true, true) := by
  exact ⟨rfl, by decide⟩

set_option maxRecDepth 100000 in
/-- C1 counterexample: with `since = "2025-01-10"` and
`until = "2025-01-20"` (both date-only labels, timezone UTC), the resolved
window's `until` is 1737331200000 ms — midnight at the *start* of the
until day — and a repository whose last commit has both timestamps at noon
of the until day (2025-01-20T12:00:00Z, 1737374400000 ms) fails the
scanner's `hasRecentActivity` test, although the very same instant passes
the classifier's `commitInRange` test (whose bound is end-of-day
1737417599 s).  So the upper bound of "every inclusion decision" is not
end-of-day on `until`. -/
theorem C1_scanner_excludes_event_during_until_day :
    calculateDateRange 0 0 none (some "2025-01-10") (some "2025-01-20") =
      Except.ok { since := some 1736467200000, untl := some 1737331200000,
                  sinceStr := "2025-01-10", untilStr := "2025-01-20" } ∧
    hasRecentActivityCore (some (some 1737374400000, some 1737374400000))
      (some 1736467200000) (some 1737331200000) = false ∧
    getUserCommitsSinceTs "2025-01-10" = some 1736467200 ∧
    getUserCommitsUntilTs 0 "2025-01-20" = some 1737417599 ∧
    tsInRange (some 1737374400) 1736467200 1737417599 = true := by
  refine ⟨rfl, by decide, by decide, by decide, by decide⟩

set_option maxRecDepth 100000 in
/-- C7 counterexample: `"0025-01-10"` is a strict `YYYY-MM-DD` calendar
date string (exact shape, existing date), yet the resolver rejects it with
`InvalidDateFormat` even at timezone offset 0, because `formatDate`
renders year 25 as `"25"` and the round-trip comparison fails.  So "any
strictly valid calendar date string is accepted" does not hold. -/
theorem C7_strict_date_with_small_year_rejected :
    IsStrictCalendarDateString "0025-01-10" ∧
    calculateDateRange 0 0 (some 7) (some "0025-01-10") none =
      Except.error DateRangeError.invalidSinceFormat := by
  refine ⟨⟨25, 1, 10, by decide, by decide, by decide, by decide, by decide⟩, rfl⟩

/-! ## Lemmas about the classification pipeline (for C4) -/

/-- Inserting a commit into its group adds exactly that commit to the
flattened group contents, as a permutation. -/
theorem groupInsert_flatten_perm (key : String) (c : RawCommit)
    (acc : List (String × List RawCommit)) :
    ((groupInsert key c acc).map (fun g => g.2)).flatten.Perm
      (((acc.map (fun g => g.2)).flatten) ++ [c]) := by
  induction acc with
  | nil => simp [groupInsert]
  | cons hd tl ih =>
    obtain ⟨k, l⟩ := hd
    by_cases h : k = key
    · simp only [groupInsert, if_pos h, List.map_cons, List.flatten_cons]
      have : (l ++ [c]) ++ (tl.map (fun g => g.2)).flatten =
          l ++ ([c] ++ (tl.map (fun g => g.2)).flatten) := by simp
      rw [this]
      exact (List.Perm.append_left l List.perm_append_comm).trans (by simp)
    · simp only [groupInsert, if_neg h, List.map_cons, List.flatten_cons]
      have := List.Perm.append_left l ih
      refine this.trans ?_
      simp

/-- Folding a list of commits into groups yields groups whose flattened
contents are a permutation of the accumulator's contents and the list. -/
theorem groupFold_flatten_perm (ext : RawCommit → String) :
    ∀ (l : List RawCommit) (acc : List (String × List RawCommit)),
      (((l.foldl (fun a c => groupInsert (ext c) c a) acc).map (fun g => g.2)).flatten).Perm
        ((acc.map (fun g => g.2)).flatten ++ l)
  | [], acc => by simp
  | c :: l, acc => by
    have ih := groupFold_flatten_perm ext l (groupInsert (ext c) c acc)
    refine (List.foldl_cons _ _ ▸ ih).trans ?_
    have h1 := groupInsert_flatten_perm (ext c) c acc
    refine (h1.append_right l).trans ?_
    simp

/-- The groups of `groupCommitsByDate` flatten back to the input, as a
permutation. -/
theorem groupCommitsByDate_flatten_perm (l : List RawCommit) (ext : RawCommit → String) :
    (((groupCommitsByDate l ext).map (fun g => g.2)).flatten).Perm l := by
  have := groupFold_flatten_perm ext l []
  simpa [groupCommitsByDate] using this

/-- A successful `summarizeGroup` records exactly the projected commits of
the group in the summary. -/
theorem summarizeGroup_commits (grp : String × List RawCommit) (s : RebaseSummary)
    (h : summarizeGroup grp = some s) :
    s.commits = grp.2.map (fun c => (c.hash, c.date, c.message)) := by
  simp only [summarizeGroup] at h
  split at h
  · exact absurd h (by simp)
  · split at h
    · exact absurd h (by simp)
    · unfold createRebaseSummary at h
      split at h
      · exact absurd h (by simp)
      · rw [← Option.some.inj h]

/-- A successful `createRebaseSummaries` flattens the summaries' commit
lists to the projected flattened groups. -/
theorem createRebaseSummaries_flatten :
    ∀ (groups : List (String × List RawCommit)) (summaries : List RebaseSummary),
      createRebaseSummaries groups = some summaries →
      (summaries.map (fun s => s.commits)).flatten =
        ((groups.map (fun g => g.2)).flatten).map (fun c => (c.hash, c.date, c.message))
  | [], summaries, h => by
    simp only [createRebaseSummaries, List.mapM_nil, pure, Option.some.injEq] at h
    simp [← h]
  | g :: gs, summaries, h => by
    simp only [createRebaseSummaries, List.mapM_cons] at h
    rcases h1 : summarizeGroup g with _ | s
    · rw [h1] at h; simp at h
    · rw [h1] at h
      rcases h2 : gs.mapM summarizeGroup with _ | ss
      · rw [h2] at h; simp at h
      · rw [h2] at h
        simp only [Option.pure_def, Option.bind_eq_bind, Option.some_bind,
          Option.some.injEq] at h
        have ih := createRebaseSummaries_flatten gs ss h2
        rw [← h]
        simp only [List.map_cons, List.flatten_cons, List.map_append]
        rw [summarizeGroup_commits g s h1, ih]

/-- Disjoint Boolean predicates split a list's length three ways. -/
theorem length_filter_three (p1 p2 : RawCommit → Bool)
    (hdisj : ∀ c, p1 c = true → p2 c = false) :
    ∀ l : List RawCommit,
      l.length = (l.filter p1).length + (l.filter p2).length +
        (l.filter (fun c => !(p1 c) && !(p2 c))).length
  | [] => by simp
  | c :: l => by
    have ih := length_filter_three p1 p2 hdisj l
    by_cases h1 : p1 c = true
    · have h2 := hdisj c h1
      simp [List.filter_cons, h1, h2, ih]
      omega
    · have h1' : p1 c = false := by revert h1; cases p1 c <;> simp
      by_cases h2 : p2 c = true
      · simp [List.filter_cons, h1', h2, ih]
        omega
      · have h2' : p2 c = false := by revert h2; cases p2 c <;> simp
        simp [List.filter_cons, h1', h2', ih]
        omega

/-- C4: whenever classification succeeds, the individually-emitted commits
are exactly the parsed commits with `authorInRange`; the commits folded
into rebase summaries are exactly (up to the grouping permutation) those
with `isRebase ∧ commitInRange ∧ ¬authorInRange`; every parsed commit
falls in exactly one of the three categories (individual, folded,
dropped), and the three category sizes add up to the input size. -/
theorem C4_classification_partitions_input (stdout : String) (sinceTs untilTs : Int)
    (commits : List RawCommit) (summaries : List RebaseSummary)
    (h : parseCommitsAndDetectRebases stdout sinceTs untilTs = some (commits, summaries)) :
    ∃ all, parsedCommits stdout sinceTs untilTs = some all ∧
      commits = all.filter (fun c => c.authorInRange) ∧
      ((summaries.map (fun s => s.commits)).flatten).Perm
        ((all.filter (fun c => c.isRebase && c.commitInRange && !c.authorInRange)).map
          (fun c => (c.hash, c.date, c.message))) ∧
      (∀ c ∈ all,
        (c.authorInRange = true ∧ (c.isRebase && c.commitInRange && !c.authorInRange) = false) ∨
        (c.authorInRange = false ∧ (c.isRebase && c.commitInRange && !c.authorInRange) = true) ∨
        (c.authorInRange = false ∧ (c.isRebase && c.commitInRange && !c.authorInRange) = false)) ∧
      all.length = commits.length +
        (all.filter (fun c => c.isRebase && c.commitInRange && !c.authorInRange)).length +
        (all.filter (fun c =>
          !c.authorInRange && !(c.isRebase && c.commitInRange && !c.authorInRange))).length := by
  have hcases : ∀ all : List RawCommit,
      classifyCommits all sinceTs untilTs = some (commits, summaries) →
      commits = all.filter (fun c => c.authorInRange) ∧
      ((summaries.map (fun s => s.commits)).flatten).Perm
        ((all.filter (fun c => c.isRebase && c.commitInRange && !c.authorInRange)).map
          (fun c => (c.hash, c.date, c.message))) := by
    intro all hc
    simp only [classifyCommits, filterCommitsByDateRange] at hc
    split at hc
    · exact absurd hc (by simp)
    · rename_i ss hs
      simp only [Option.some.injEq, Prod.mk.injEq] at hc
      obtain ⟨hc1, hc2⟩ := hc
      refine ⟨hc1.symm, ?_⟩
      rw [← hc2]
      rw [createRebaseSummaries_flatten _ ss hs]
      exact List.Perm.map _ (groupCommitsByDate_flatten_perm _ _)
  unfold parseCommitsAndDetectRebases at h
  by_cases hblank : jsTrim stdout = ""
  · rw [if_pos hblank] at h
    refine ⟨[], by simp [parsedCommits, hblank], ?_⟩
    simp only [Option.some.injEq, Prod.mk.injEq] at h
    obtain ⟨h1, h2⟩ := h
    refine ⟨by simp [← h1], by simp [← h2], by simp, by simp [← h1]⟩
  · rw [if_neg hblank] at h
    rcases hparse : (jsSplit '\n' (jsTrim stdout)).mapM (parseCommitLine sinceTs untilTs)
        with _ | all
    · rw [hparse] at h; exact absurd h (by simp)
    · rw [hparse] at h
      obtain ⟨h1, h2⟩ := hcases all h
      refine ⟨all, by simp only [parsedCommits, if_neg hblank]; exact hparse, h1, h2, ?_, ?_⟩
      · intro c _
        cases c.authorInRange <;> cases c.isRebase <;> cases c.commitInRange <;> simp
      · have := length_filter_three (fun c => c.authorInRange)
          (fun c => c.isRebase && c.commitInRange && !c.authorInRange)
          (fun c hc => by simp [hc]) all
        rw [h1]
        omega

set_option maxRecDepth 1000000 in
/-- C4 witness: the partition property instantiated at the concrete
two-commit log output. -/
theorem C4_classification_partitions_input_witness :
    ∃ all, parsedCommits c5Stdout 1736467200 1737417599 = some all ∧
      ([] : List RawCommit) = all.filter (fun c => c.authorInRange) ∧
      ((([{ commitDate := "2025-01-15", commitTime := "10:00", count := 2,
            firstAuthorDate := "2025-01-01", lastAuthorDate := "2025-01-02",
            commits := [("abc1111", "2025-01-01", "First change"),
                        ("abc2222", "2025-01-02", "Second change")] }] :
          List RebaseSummary).map (fun s => s.commits)).flatten).Perm
        ((all.filter (fun c => c.isRebase && c.commitInRange && !c.authorInRange)).map
          (fun c => (c.hash, c.date, c.message))) ∧
      (∀ c ∈ all,
        (c.authorInRange = true ∧ (c.isRebase && c.commitInRange && !c.authorInRange) = false) ∨
        (c.authorInRange = false ∧ (c.isRebase && c.commitInRange && !c.authorInRange) = true) ∨
        (c.authorInRange = false ∧ (c.isRebase && c.commitInRange && !c.authorInRange) = false)) ∧
      all.length = ([] : List RawCommit).length +
        (all.filter (fun c => c.isRebase && c.commitInRange && !c.authorInRange)).length +
        (all.filter (fun c =>
          !c.authorInRange && !(c.isRebase && c.commitInRange && !c.authorInRange))).length :=
  C4_classification_partitions_input c5Stdout 1736467200 1737417599 _ _ (by decide)

/-! ## Lemmas about the scanner (for C8, C9, C10) -/

/-- A directory whose path is already in the visited set is skipped
without any effect (the cycle guard). -/
theorem findActiveGitRepos_when_visited (t : FSTree) (sD uD : Option Int)
    (visited : List (List String)) (relPath : List String) (ign : List CompiledRx)
    (h : relPath ∈ visited) :
    findActiveGitRepos t sD uD visited relPath ign = ([], visited) := by
  cases t with
  | node statOk readdirOk hasGit lastCommit children others =>
    cases statOk <;> simp [findActiveGitRepos, h]

/-- Sibling subtrees headed by distinct entry names contain no path of one
below a path of the other. -/
theorem not_strictBelow_of_head_ne (base : List String) (n n2 : String)
    (r1 r2 : List String) (h : n ≠ n2) :
    ¬ strictBelow (base ++ n :: r1) (base ++ n2 :: r2) := by
  rintro ⟨e, _, heq⟩
  rw [List.append_assoc] at heq
  have := List.append_cancel_left heq
  simp only [List.cons_append, List.cons.injEq] at this
  exact h this.1

/-- A path strictly extended by an entry name differs from the base path. -/
theorem extended_ne_base (base : List String) (n : String) (r : List String) :
    base ++ n :: r ≠ base := by
  intro h
  have : (base ++ n :: r).length = base.length := by rw [h]
  simp at this

mutual
/-- Invariant of one `findActiveGitRepos` call: the visited set grows by a
duplicate-free block of fresh paths below the current directory; all
results are among the fresh paths; a non-empty result records the current
path in the visited set; and the results form an antichain under
`strictBelow`. -/
theorem scanTree_inv (t : FSTree) (sD uD : Option Int) (visited : List (List String))
    (relPath : List String) (ign : List CompiledRx) :
    ∃ nw, (findActiveGitRepos t sD uD visited relPath ign).2 = nw ++ visited ∧
      nw.Nodup ∧ (∀ p ∈ nw, p ∉ visited) ∧
      (∀ p ∈ nw, ∃ r, p = relPath ++ r) ∧
      (∀ p ∈ (findActiveGitRepos t sD uD visited relPath ign).1, p ∈ nw) ∧
      ((findActiveGitRepos t sD uD visited relPath ign).1 ≠ [] →
        relPath ∈ (findActiveGitRepos t sD uD visited relPath ign).2) ∧
      List.Pairwise (fun p q => ¬ strictBelow p q ∧ ¬ strictBelow q p)
        (findActiveGitRepos t sD uD visited relPath ign).1 := by
  cases t with
  | node statOk readdirOk hasGit lastCommit children others =>
    by_cases hstat : statOk = false
    · refine ⟨[], ?_⟩
      simp [findActiveGitRepos, hstat]
    · have hstat' : statOk = true := by revert hstat; cases statOk <;> simp
      by_cases hmem : relPath ∈ visited
      · refine ⟨[], ?_⟩
        simp [findActiveGitRepos, hstat', hmem]
    -- from here the node is actually processed and `relPath` is added
      · by_cases hign : (!relPath.isEmpty && shouldIgnorePath (jsJoin "/" relPath) ign) = true
        · refine ⟨[relPath], ?_⟩
          simp [findActiveGitRepos, hstat', hmem, hign]
        · by_cases hgit : hasGit = true
          · refine ⟨[relPath], ?_⟩
            have hres : (findActiveGitRepos
                (FSTree.node statOk readdirOk hasGit lastCommit children others)
                sD uD visited relPath ign) =
                ((if hasRecentActivityCore lastCommit sD uD then [relPath] else []),
                 relPath :: visited) := by
              simp [findActiveGitRepos, hstat', hmem, hign, hgit]
            rw [hres]
            refine ⟨by simp, by simp, by simp [hmem],
              by intro p hp; simp only [List.mem_singleton] at hp; exact ⟨[], by simp [hp]⟩,
              ?_, by intro _; simp, ?_⟩
            · intro p hp
              by_cases hact : hasRecentActivityCore lastCommit sD uD = true
              · simp only [hact, if_true] at hp
                simpa using hp
              · simp only [hact, if_false] at hp
                simp at hp
            · cases hasRecentActivityCore lastCommit sD uD <;> simp
          · by_cases hrd : readdirOk = false
            · refine ⟨[relPath], ?_⟩
              simp only [findActiveGitRepos, hstat', hign, hgit, hrd]
              simp [hmem]
            · have hrd' : readdirOk = true := by revert hrd; cases readdirOk <;> simp
              have hgit' : hasGit = false := by revert hgit; cases hasGit <;> simp
              have hres : (findActiveGitRepos
                  (FSTree.node statOk readdirOk hasGit lastCommit children others)
                  sD uD visited relPath ign) =
                  scanChildren children sD uD (relPath :: visited) relPath ign := by
                simp [findActiveGitRepos, hstat', hmem, hign, hgit', hrd']
              obtain ⟨nwF, heq, hnd, hfresh, hshape, hres1, hroot, hpair⟩ :=
                scanForest_inv children sD uD (relPath :: visited) relPath ign
              refine ⟨nwF ++ [relPath], ?_, ?_, ?_, ?_, ?_, ?_, ?_⟩
              · rw [hres, heq]; simp
              · rw [List.nodup_append]
                refine ⟨hnd, by simp, ?_⟩
                intro p hp
                have := hfresh p hp
                simp only [List.mem_cons, not_or] at this
                simp [this.1]
              · intro p hp
                rcases List.mem_append.1 hp with h1 | h1
                · exact fun hv => (hfresh p h1) (by simp [hv])
                · simp only [List.mem_singleton] at h1
                  exact h1 ▸ hmem
              · intro p hp
                rcases List.mem_append.1 hp with h1 | h1
                · obtain ⟨n, r, hpr⟩ := hshape p h1
                  exact ⟨n :: r, hpr⟩
                · simp only [List.mem_singleton] at h1
                  exact ⟨[], by simp [h1]⟩
              · intro p hp
                rw [hres] at hp
                exact List.mem_append.2 (Or.inl (hres1 p hp))
              · intro _
                rw [hres, heq]
                simp
              · rw [hres]
                exact hpair

/-- Invariant of the sibling fan-out: as `scanTree_inv`, with every fresh
path lying below a named child, and every result additionally recording
that its child root was not previously visited. -/
theorem scanForest_inv (k : FSForest) (sD uD : Option Int) (visited : List (List String))
    (relPath : List String) (ign : List CompiledRx) :
    ∃ nw, (scanChildren k sD uD visited relPath ign).2 = nw ++ visited ∧
      nw.Nodup ∧ (∀ p ∈ nw, p ∉ visited) ∧
      (∀ p ∈ nw, ∃ n r, p = relPath ++ n :: r) ∧
      (∀ p ∈ (scanChildren k sD uD visited relPath ign).1, p ∈ nw) ∧
      (∀ p ∈ (scanChildren k sD uD visited relPath ign).1,
        ∃ n r, p = relPath ++ n :: r ∧ relPath ++ [n] ∉ visited) ∧
      List.Pairwise (fun p q => ¬ strictBelow p q ∧ ¬ strictBelow q p)
        (scanChildren k sD uD visited relPath ign).1 := by
  cases k with
  | nil => exact ⟨[], by simp [scanChildren]⟩
  | cons name sub rest =>
    by_cases hhid : jsStartsWith name "." = true
    · have hres : scanChildren (FSForest.cons name sub rest) sD uD visited relPath ign =
          scanChildren rest sD uD visited relPath ign := by
        simp [scanChildren, hhid]
      rw [hres]
      exact scanForest_inv rest sD uD visited relPath ign
    · obtain ⟨nw1, heq1, hnd1, hfresh1, hshape1, hres1, hroot1, hpair1⟩ :=
        scanTree_inv sub sD uD visited (relPath ++ [name]) ign
      obtain ⟨nw2, heq2, hnd2, hfresh2, hshape2, hres2, hfres2, hpair2⟩ :=
        scanForest_inv rest sD uD
          (findActiveGitRepos sub sD uD visited (relPath ++ [name]) ign).2 relPath ign
      have hres : scanChildren (FSForest.cons name sub rest) sD uD visited relPath ign =
          ((findActiveGitRepos sub sD uD visited (relPath ++ [name]) ign).1 ++
            (scanChildren rest sD uD
              (findActiveGitRepos sub sD uD visited (relPath ++ [name]) ign).2 relPath ign).1,
           (scanChildren rest sD uD
              (findActiveGitRepos sub sD uD visited (relPath ++ [name]) ign).2 relPath ign).2) := by
        simp [scanChildren, hhid]
      refine ⟨nw2 ++ nw1, ?_, ?_, ?_, ?_, ?_, ?_, ?_⟩
      · rw [hres, heq2, heq1]; simp
      · rw [List.nodup_append]
        refine ⟨hnd2, hnd1, ?_⟩
        intro p hp
        have := hfresh2 p hp
        rw [heq1] at this
        simp only [List.mem_append, not_or] at this
        exact this.1
      · intro p hp
        rcases List.mem_append.1 hp with h1 | h1
        · have := hfresh2 p h1
          rw [heq1] at this
          simp only [List.mem_append, not_or] at this
          exact this.2
        · exact hfresh1 p h1
      · intro p hp
        rcases List.mem_append.1 hp with h1 | h1
        · exact hshape2 p h1
        · obtain ⟨r, hr⟩ := hshape1 p h1
          exact ⟨name, r, by simp [hr]⟩
      · intro p hp
        rw [hres] at hp
        rcases List.mem_append.1 hp with h1 | h1
        · exact List.mem_append.2 (Or.inr (hres1 p h1))
        · exact List.mem_append.2 (Or.inl (hres2 p h1))
      · intro p hp
        rw [hres] at hp
        rcases List.mem_append.1 hp with h1 | h1
        · obtain ⟨r, hr⟩ := hshape1 p (hres1 p h1)
          refine ⟨name, r, by simp [hr], ?_⟩
          intro hv
          have := findActiveGitRepos_when_visited sub sD uD visited (relPath ++ [name]) ign hv
          rw [this] at h1
          simp at h1
        · obtain ⟨n, r, hpr, hnv⟩ := hfres2 p h1
          refine ⟨n, r, hpr, ?_⟩
          intro hv
          exact hnv (by rw [heq1]; simp [hv])
      · rw [hres]
        rw [List.pairwise_append]
        refine ⟨hpair1, hpair2, ?_⟩
        intro p hp q hq
        obtain ⟨r1, hr1⟩ := hshape1 p (hres1 p hp)
        obtain ⟨n2, r2, hqr, hnv⟩ := hfres2 q hq
        by_cases hne : name = n2
        · exfalso
          apply hnv
          rw [← hne]
          have : relPath ++ [name] ∈ (findActiveGitRepos sub sD uD visited
              (relPath ++ [name]) ign).2 := hroot1 (by intro h0; rw [h0] at hp; simp at hp)
          exact this
        · have hp' : p = relPath ++ name :: r1 := by simp [hr1]
          rw [hp', hqr]
          exact ⟨not_strictBelow_of_head_ne relPath name n2 r1 r2 hne,
                 not_strictBelow_of_head_ne relPath n2 name r2 r1 (fun h => hne h.symm)⟩
end

/-- C8: for every modelled directory tree — in particular whatever symlink
entries it contains and wherever they point, since `readdir` reports
symlinks with `isDirectory() = false` and the scan never descends through
them — a full scan (which terminates by construction: the recursion is
structural on the finite tree of real directories) produces a visited set
without duplicates: every path is visited at most once, the visited-set
check running before any directory is processed. -/
theorem C8_scan_visits_each_path_at_most_once
    (t : FSTree) (sD uD : Option Int) (ign : List CompiledRx) :
    ((findActiveGitRepos t sD uD [] [] ign).2).Nodup := by
  obtain ⟨nw, heq, hnd, _⟩ := scanTree_inv t sD uD [] [] ign
  rw [heq]
  simpa using hnd

/-- C9: the active-repository paths returned by a scan form an antichain
under the descendant relation: no result lies strictly below another. -/
theorem C9_results_form_antichain
    (t : FSTree) (sD uD : Option Int) (ign : List CompiledRx) :
    List.Pairwise (fun p q => ¬ strictBelow p q ∧ ¬ strictBelow q p)
      (findActiveGitRepos t sD uD [] [] ign).1 := by
  obtain ⟨nw, _, _, _, _, _, hpair⟩ := scanTree_inv t sD uD [] [] ign
  exact hpair.2

/-! ## Ancestor lemmas (for C10) -/

/-- A found child is listed among the forest's names. -/
theorem findDirChild_mem_names :
    ∀ (k : FSForest) (n : String) (sub : FSTree),
      findDirChild k n = some sub → n ∈ forestNames k
  | FSForest.nil, n, sub, h => by simp [findDirChild] at h
  | FSForest.cons n2 t rest, n, sub, h => by
    by_cases hn : n2 = n
    · simp [forestNames, hn]
    · simp only [findDirChild, if_neg hn] at h
      simp [forestNames, findDirChild_mem_names rest n sub h]

mutual
/-- In a well-formed tree, every strict ancestor of a reported repository
path is a directory without a `.git` marker: the scan emits a repository
and never descends into it, so nothing below a repository can be
reported. -/
theorem scanTree_ancestors (t : FSTree) (sD uD : Option Int)
    (visited : List (List String)) (relPath : List String) (ign : List CompiledRx)
    (hwf : treeWF t = true) :
    ∀ p ∈ (findActiveGitRepos t sD uD visited relPath ign).1,
      ∃ s, p = relPath ++ s ∧
        ∀ s1 s2, s = s1 ++ s2 → s2 ≠ [] →
          ∀ t2, subtreeAt s1 t = some t2 → t2.hasGit = false := by
  cases t with
  | node statOk readdirOk hasGit lastCommit children others =>
    by_cases hstat : statOk = false
    · intro p hp; rw [show (findActiveGitRepos
        (FSTree.node statOk readdirOk hasGit lastCommit children others)
        sD uD visited relPath ign) = ([], visited) by simp [findActiveGitRepos, hstat]] at hp
      simp at hp
    · have hstat' : statOk = true := by revert hstat; cases statOk <;> simp
      by_cases hmem : relPath ∈ visited
      · intro p hp
        rw [findActiveGitRepos_when_visited _ _ _ _ _ _ hmem] at hp
        simp at hp
      · by_cases hign : (!relPath.isEmpty && shouldIgnorePath (jsJoin "/" relPath) ign) = true
        · intro p hp
          rw [show (findActiveGitRepos
            (FSTree.node statOk readdirOk hasGit lastCommit children others)
            sD uD visited relPath ign) = ([], relPath :: visited) by
              simp [findActiveGitRepos, hstat', hmem, hign]] at hp
          simp at hp
        · by_cases hgit : hasGit = true
          · intro p hp
            rw [show (findActiveGitRepos
              (FSTree.node statOk readdirOk hasGit lastCommit children others)
              sD uD visited relPath ign) =
              ((if hasRecentActivityCore lastCommit sD uD then [relPath] else []),
               relPath :: visited) by simp [findActiveGitRepos, hstat', hmem, hign, hgit]] at hp
            refine ⟨[], ?_, ?_⟩
            · cases hact : hasRecentActivityCore lastCommit sD uD <;> rw [hact] at hp <;>
                simp at hp
              simp [hp]
            · intro s1 s2 hs hs2 t2 _
              exact absurd hs.symm (by simp [hs2])
          · by_cases hrd : readdirOk = false
            · intro p hp
              rw [show (findActiveGitRepos
                (FSTree.node statOk readdirOk hasGit lastCommit children others)
                sD uD visited relPath ign) = ([], relPath :: visited) by
                  simp [findActiveGitRepos, hstat', hmem, hign, hgit, hrd]] at hp
              simp at hp
            · have hrd' : readdirOk = true := by revert hrd; cases readdirOk <;> simp
              have hgit' : hasGit = false := by revert hgit; cases hasGit <;> simp
              have hres : (findActiveGitRepos
                  (FSTree.node statOk readdirOk hasGit lastCommit children others)
                  sD uD visited relPath ign) =
                  scanChildren children sD uD (relPath :: visited) relPath ign := by
                simp [findActiveGitRepos, hstat', hmem, hign, hgit', hrd']
              intro p hp
              rw [hres] at hp
              simp only [treeWF, Bool.and_eq_true, decide_eq_true_eq] at hwf
              obtain ⟨n, r, sub, hfind, hpr, hprop⟩ :=
                scanForest_ancestors children sD uD (relPath :: visited) relPath ign
                  hwf.1 hwf.2 p hp
              refine ⟨n :: r, hpr, ?_⟩
              intro s1 s2 hs hs2 t2 hsub
              cases s1 with
              | nil =>
                have : t2 = FSTree.node statOk readdirOk hasGit lastCommit children others := by
                  simpa [subtreeAt] using hsub.symm
                rw [this]
                simpa [FSTree.hasGit] using hgit'
              | cons n1 s1t =>
                simp only [List.cons_append, List.cons.injEq] at hs
                obtain ⟨hn1, hr⟩ := hs
                rw [← hn1] at hsub
                simp only [subtreeAt, hfind] at hsub
                exact hprop s1t s2 hr hs2 t2 hsub

/-- Forest version of `scanTree_ancestors`: every result of the fan-out
lies below a named child reachable by `findDirChild`, with no `.git`
directory strictly above it inside that child. -/
theorem scanForest_ancestors (k : FSForest) (sD uD : Option Int)
    (visited : List (List String)) (relPath : List String) (ign : List CompiledRx)
    (hnames : (forestNames k).Nodup) (hwf : forestWF k = true) :
    ∀ p ∈ (scanChildren k sD uD visited relPath ign).1,
      ∃ n r sub, findDirChild k n = some sub ∧ p = relPath ++ n :: r ∧
        ∀ s1 s2, r = s1 ++ s2 → s2 ≠ [] →
          ∀ t2, subtreeAt s1 sub = some t2 → t2.hasGit = false := by
  cases k with
  | nil => intro p hp; simp [scanChildren] at hp
  | cons name sub rest =>
    simp only [forestNames, List.nodup_cons] at hnames
    simp only [forestWF, Bool.and_eq_true] at hwf
    by_cases hhid : jsStartsWith name "." = true
    · intro p hp
      rw [show scanChildren (FSForest.cons name sub rest) sD uD visited relPath ign =
          scanChildren rest sD uD visited relPath ign by simp [scanChildren, hhid]] at hp
      obtain ⟨n, r, sub2, hfind, hpr, hprop⟩ :=
        scanForest_ancestors rest sD uD visited relPath ign hnames.2 hwf.2 p hp
      have hne : ¬ name = n := fun h => hnames.1 (h ▸ findDirChild_mem_names rest n sub2 hfind)
      exact ⟨n, r, sub2, by simp [findDirChild, hne, hfind], hpr, hprop⟩
    · intro p hp
      rw [show scanChildren (FSForest.cons name sub rest) sD uD visited relPath ign =
          ((findActiveGitRepos sub sD uD visited (relPath ++ [name]) ign).1 ++
            (scanChildren rest sD uD
              (findActiveGitRepos sub sD uD visited (relPath ++ [name]) ign).2 relPath ign).1,
           (scanChildren rest sD uD
              (findActiveGitRepos sub sD uD visited (relPath ++ [name]) ign).2 relPath ign).2)
          by simp [scanChildren, hhid]] at hp
      rcases List.mem_append.1 hp with h1 | h1
      · obtain ⟨s, hps, hprop⟩ :=
          scanTree_ancestors sub sD uD visited (relPath ++ [name]) ign hwf.1 p h1
        exact ⟨name, s, sub, by simp [findDirChild], by simp [hps], hprop⟩
      · obtain ⟨n, r, sub2, hfind, hpr, hprop⟩ :=
          scanForest_ancestors rest sD uD
            (findActiveGitRepos sub sD uD visited (relPath ++ [name]) ign).2 relPath ign
            hnames.2 hwf.2 p h1
        have hne : ¬ name = n := fun h => hnames.1 (h ▸ findDirChild_mem_names rest n sub2 hfind)
        exact ⟨n, r, sub2, by simp [findDirChild, hne, hfind], hpr, hprop⟩
end

/-- C10: (a) when the scanner reaches a directory containing a `.git`
subdirectory it stops: whatever the activity test or the last-commit query
returned, the only possible result is the directory itself and the only
possible new visited entry is the directory itself — nothing beneath it is
visited or reported; (b) consequently, in a well-formed tree no strict
ancestor of any reported repository path is itself a directory with a
`.git` subdirectory: a repository nested anywhere beneath another
repository, active or not, is never discovered. -/
theorem C10_repository_boundary_stops_descent :
    (∀ (sOk rOk : Bool) (lc : Option (Option Int × Option Int)) (ch : FSForest)
        (os : List (String × Option (List String))) (sD uD : Option Int)
        (visited : List (List String)) (relPath : List String) (ign : List CompiledRx),
      (∀ p ∈ (findActiveGitRepos (FSTree.node sOk rOk true lc ch os)
          sD uD visited relPath ign).1, p = relPath) ∧
      ((findActiveGitRepos (FSTree.node sOk rOk true lc ch os)
          sD uD visited relPath ign).2 = visited ∨
       (findActiveGitRepos (FSTree.node sOk rOk true lc ch os)
          sD uD visited relPath ign).2 = relPath :: visited)) ∧
    (∀ (t : FSTree), treeWF t = true → ∀ (sD uD : Option Int) (ign : List CompiledRx)
        (p : List String), p ∈ (findActiveGitRepos t sD uD [] [] ign).1 →
      ∀ q r, p = q ++ r → r ≠ [] → ∀ t2, subtreeAt q t = some t2 →
        FSTree.hasGit t2 = false) := by
  constructor
  · intro sOk rOk lc ch os sD uD visited relPath ign
    by_cases hstat : sOk = false
    · constructor
      · intro p hp
        rw [show (findActiveGitRepos (FSTree.node sOk rOk true lc ch os)
            sD uD visited relPath ign) = ([], visited) by
          simp [findActiveGitRepos, hstat]] at hp
        simp at hp
      · left
        rw [show (findActiveGitRepos (FSTree.node sOk rOk true lc ch os)
            sD uD visited relPath ign) = ([], visited) by
          simp [findActiveGitRepos, hstat]]
    · have hstat' : sOk = true := by revert hstat; cases sOk <;> simp
      by_cases hmem : relPath ∈ visited
      · rw [findActiveGitRepos_when_visited _ _ _ _ _ _ hmem]
        exact ⟨by intro p hp; simp at hp, Or.inl rfl⟩
      · by_cases hign : (!relPath.isEmpty && shouldIgnorePath (jsJoin "/" relPath) ign) = true
        · rw [show (findActiveGitRepos (FSTree.node sOk rOk true lc ch os)
              sD uD visited relPath ign) = ([], relPath :: visited) by
            simp [findActiveGitRepos, hstat', hmem, hign]]
          exact ⟨by intro p hp; simp at hp, Or.inr rfl⟩
        · rw [show (findActiveGitRepos (FSTree.node sOk rOk true lc ch os)
              sD uD visited relPath ign) =
              ((if hasRecentActivityCore lc sD uD then [relPath] else []),
               relPath :: visited) by
            simp [findActiveGitRepos, hstat', hmem, hign]]
          refine ⟨?_, Or.inr rfl⟩
          intro p hp
          cases hact : hasRecentActivityCore lc sD uD <;> rw [hact] at hp <;> simp at hp
          exact hp
  · intro t hwf sD uD ign p hp q r hqr hr t2 hsub
    obtain ⟨s, hps, hprop⟩ := scanTree_ancestors t sD uD [] [] ign hwf p hp
    simp only [List.nil_append] at hps
    exact hprop q r (by rw [← hps, hqr]) hr t2 hsub

set_option maxRecDepth 40000 in
/-- C10 witness: in the concrete tree `wRoot`, the active repository
`a` (which itself contains the nested active repository `b`) is reported,
and the theorem applied at its ancestor `[]` shows the root carries no
`.git` marker; the nested `b` is absent from the results. -/
theorem C10_repository_boundary_stops_descent_witness :
    treeWF wRoot = true ∧
    ["a"] ∈ (findActiveGitRepos wRoot (some 0) (some 2000) [] [] []).1 ∧
    (["a"] : List String) = [] ++ ["a"] ∧
    FSTree.hasGit wRoot = false :=
  ⟨by decide, by decide, rfl,
    C10_repository_boundary_stops_descent.2 wRoot (by decide) (some 0) (some 2000) []
      ["a"] (by decide) [] ["a"] rfl (by decide) wRoot rfl⟩

/-! ## Character and rendering lemmas (for C1 and C7) -/

theorem string_eq_of_data {s t : String} (h : s.data = t.data) : s = t := by
  cases s
  cases t
  exact congrArg String.mk (by simpa using h)

theorem data_append (a b : String) : (a ++ b).data = a.data ++ b.data := by
  cases a; cases b; rfl

theorem digitChar_toNat {k : Nat} (h : k < 10) : (digitChar k).toNat = 48 + k := by
  simp only [digitChar, Char.ofNat]
  rw [dif_pos (Or.inl (by omega))]
  rfl

theorem digitChar_digitVal {c : Char} (h1 : 48 ≤ c.toNat) (h2 : c.toNat ≤ 57) :
    digitChar (digitVal c) = c := by
  have h3 : 48 + (c.toNat - 48) = c.toNat := by omega
  rw [digitChar, digitVal, h3, Char.ofNat_toNat]

theorem digitVal_digitChar {k : Nat} (h : k < 10) : digitVal (digitChar k) = k := by
  rw [digitVal, digitChar_toNat h]
  omega

theorem digitChar_ne_dash {k : Nat} (h : k < 10) : digitChar k ≠ '-' := by
  intro he
  have h1 := digitChar_toNat h
  rw [he] at h1
  have h2 : ('-').toNat = 45 := rfl
  omega

theorem isDigitChar_digitChar {k : Nat} (h : k < 10) : isDigitChar (digitChar k) = true := by
  simp only [isDigitChar, digitChar_toNat h]
  simp
  omega

theorem decimalString_data_of_year {y : Nat} (h1 : 1000 ≤ y) (h2 : y ≤ 9999) :
    (decimalString y).data =
      [digitChar (y / 1000), digitChar (y / 100 % 10), digitChar (y / 10 % 10),
       digitChar (y % 10)] := by
  rw [decimalString, if_neg (by omega), if_neg (by omega), if_neg (by omega)]

theorem pad2_data_small {m : Nat} (h : m < 10) :
    (pad2 m).data = [digitChar 0, digitChar m] := by
  rw [pad2, if_pos h]

theorem pad2_data_large {m : Nat} (h1 : 10 ≤ m) (h2 : m ≤ 99) :
    (pad2 m).data = [digitChar (m / 10), digitChar (m % 10)] := by
  rw [pad2, if_neg (by omega), decimalString, if_neg (by omega), if_pos (by omega)]

theorem pad2_data {m : Nat} (h2 : m ≤ 99) :
    (pad2 m).data = [digitChar (m / 10), digitChar (m % 10)] := by
  by_cases h : m < 10
  · rw [pad2_data_small h]
    have e1 : m / 10 = 0 := by omega
    have e2 : m % 10 = m := by omega
    rw [e1, e2]
  · exact pad2_data_large (by omega) h2

theorem renderDate_data {y m d : Nat} (hy1 : 1000 ≤ y) (hy2 : y ≤ 9999)
    (hm : m ≤ 99) (hd : d ≤ 99) :
    (renderDate y m d).data =
      [digitChar (y / 1000), digitChar (y / 100 % 10), digitChar (y / 10 % 10),
       digitChar (y % 10), '-', digitChar (m / 10), digitChar (m % 10), '-',
       digitChar (d / 10), digitChar (d % 10)] := by
  rw [renderDate]
  rw [data_append, data_append, data_append, data_append]
  rw [decimalString_data_of_year hy1 hy2, pad2_data hm, pad2_data hd]
  rfl

theorem dateDigits_renderDate {y m d : Nat} (hy1 : 1000 ≤ y) (hy2 : y ≤ 9999)
    (hm : m ≤ 99) (hd : d ≤ 99) :
    dateDigits (renderDate y m d) = some (y, m, d) := by
  rw [dateDigits]
  rw [renderDate_data hy1 hy2 hm hd]
  have hds : ∀ k, k < 10 → isDigitChar (digitChar k) = true := fun k hk =>
    isDigitChar_digitChar hk
  simp only [List.all_cons, List.all_nil,
    hds _ (by omega : y / 1000 < 10), hds _ (by omega : y / 100 % 10 < 10),
    hds _ (by omega : y / 10 % 10 < 10), hds _ (by omega : y % 10 < 10),
    hds _ (by omega : m / 10 < 10), hds _ (by omega : m % 10 < 10),
    hds _ (by omega : d / 10 < 10), hds _ (by omega : d % 10 < 10),
    Bool.and_self, if_true]
  rw [digitVal_digitChar (by omega : y / 1000 < 10),
      digitVal_digitChar (by omega : y / 100 % 10 < 10),
      digitVal_digitChar (by omega : y / 10 % 10 < 10),
      digitVal_digitChar (by omega : y % 10 < 10),
      digitVal_digitChar (by omega : m / 10 < 10),
      digitVal_digitChar (by omega : m % 10 < 10),
      digitVal_digitChar (by omega : d / 10 < 10),
      digitVal_digitChar (by omega : d % 10 < 10)]
  have ey : y / 1000 * 1000 + y / 100 % 10 * 100 + y / 10 % 10 * 10 + y % 10 = y := by omega
  have em : m / 10 * 10 + m % 10 = m := by omega
  have ed : d / 10 * 10 + d % 10 = d := by omega
  rw [ey, em, ed]

/-! ## Calendar lemmas (for C1 and C7) -/

set_option maxHeartbeats 1000000 in
theorem daysFromYear0_succ (y : Nat) :
    daysFromYear0 (y + 1) = daysFromYear0 y + (if isLeapYear y = true then 366 else 365) := by
  have hiff : (isLeapYear y = true) ↔ ((y % 4 = 0 ∧ ¬ y % 100 = 0) ∨ y % 400 = 0) := by
    simp [isLeapYear]
  by_cases hl : isLeapYear y = true
  · rw [if_pos hl]
    have hcond := hiff.1 hl
    unfold daysFromYear0
    omega
  · rw [if_neg hl]
    have hcond := (not_congr hiff).1 hl
    unfold daysFromYear0
    omega

theorem daysFromYear0_le {a b : Nat} (h : a ≤ b) :
    daysFromYear0 a ≤ daysFromYear0 b := by
  induction b, h using Nat.le_induction with
  | base => exact Nat.le_refl _
  | succ n hn ih =>
    refine ih.trans ?_
    rw [daysFromYear0_succ]
    split <;> omega

theorem daysFromYear0_lower (y : Nat) : 365 * y ≤ daysFromYear0 y := by
  unfold daysFromYear0
  omega

theorem daysFromYear0_upper (y : Nat) : daysFromYear0 y ≤ 366 * y := by
  unfold daysFromYear0
  omega

theorem findYearGo_eq :
    ∀ (fuel y0 n y : Nat), y0 ≤ y → y - y0 ≤ fuel →
      daysFromYear0 y ≤ n → n < daysFromYear0 (y + 1) → findYearGo fuel y0 n = y
  | 0, y0, n, y, h1, h2, _, _ => by
    have he : y0 = y := by omega
    rw [findYearGo, he]
  | fuel + 1, y0, n, y, h1, h2, h3, h4 => by
    rw [findYearGo]
    by_cases hc : daysFromYear0 (y0 + 1) ≤ n
    · rw [if_pos hc]
      have hy0y : y0 < y := by
        by_contra hge
        have he : y0 = y := by omega
        rw [he] at hc
        omega
      exact findYearGo_eq fuel (y0 + 1) n y (by omega) (by omega) h3 h4
    · rw [if_neg hc]
      by_contra hne
      have hlt : y0 + 1 ≤ y := by omega
      have := daysFromYear0_le hlt
      omega

theorem findYear_eq {n y : Nat} (hy : y ≤ 9999)
    (h3 : daysFromYear0 y ≤ n) (h4 : n < daysFromYear0 (y + 1)) :
    findYear n = y := by
  rw [findYear]
  have hup := daysFromYear0_upper (y + 1)
  have hlow := daysFromYear0_lower y
  exact findYearGo_eq 40 (n / 366) n y (by omega) (by omega) h3 h4

set_option maxHeartbeats 4000000 in
theorem monthFromDoy_eq {y m d : Nat} (hm1 : 1 ≤ m) (hm2 : m ≤ 12) (hd1 : 1 ≤ d)
    (hd2 : d ≤ daysInMonth y m) :
    monthFromDoy (isLeapYear y) (monthOffset (isLeapYear y) m + (d - 1)) = (m, d) := by
  cases hl : isLeapYear y <;> interval_cases m <;>
    (norm_num [daysInMonth, hl] at hd2
     interval_cases d <;> rfl)

set_option maxHeartbeats 4000000 in
theorem doy_lt_year_length {y m d : Nat} (hm1 : 1 ≤ m) (hm2 : m ≤ 12) (hd1 : 1 ≤ d)
    (hd2 : d ≤ daysInMonth y m) :
    monthOffset (isLeapYear y) m + (d - 1) < (if isLeapYear y = true then 366 else 365) := by
  cases hl : isLeapYear y <;> interval_cases m <;>
    (norm_num [daysInMonth, hl] at hd2
     interval_cases d <;> decide)

set_option maxHeartbeats 1000000 in
theorem le_99_of_le_daysInMonth {y m d : Nat} (hm1 : 1 ≤ m) (hm2 : m ≤ 12)
    (h : d ≤ daysInMonth y m) : d ≤ 99 := by
  cases hl : isLeapYear y <;> interval_cases m <;> norm_num [daysInMonth, hl] at h <;> omega

theorem civilFromDays_epochDays {y m d : Nat} (hy : y ≤ 9999)
    (hm1 : 1 ≤ m) (hm2 : m ≤ 12) (hd1 : 1 ≤ d) (hd2 : d ≤ daysInMonth y m) :
    civilFromDays (epochDays y m d) = (y, m, d) := by
  have hn : (epochDays y m d + 719528).toNat = absDays y m d := by
    rw [epochDays]
    omega
  simp only [civilFromDays, hn]
  have hlo : daysFromYear0 y ≤ absDays y m d := by
    rw [absDays]
    omega
  have hhi : absDays y m d < daysFromYear0 (y + 1) := by
    rw [daysFromYear0_succ, absDays]
    have hx := doy_lt_year_length hm1 hm2 hd1 hd2
    by_cases hc : isLeapYear y = true
    · rw [if_pos hc] at hx ⊢
      omega
    · rw [if_neg hc] at hx ⊢
      omega
  rw [findYear_eq hy hlo hhi]
  have hdoy : absDays y m d - daysFromYear0 y = monthOffset (isLeapYear y) m + (d - 1) := by
    rw [absDays]
    omega
  rw [hdoy, monthFromDoy_eq hm1 hm2 hd1 hd2]

theorem formatDate_epochDays {tz : Int} {y m d : Nat} (htz0 : 0 ≤ tz) (htz1 : tz < 1440)
    (hy : y ≤ 9999) (hm1 : 1 ≤ m) (hm2 : m ≤ 12) (hd1 : 1 ≤ d)
    (hd2 : d ≤ daysInMonth y m) :
    formatDate tz (some (epochDays y m d * 86400000)) = renderDate y m d := by
  simp only [formatDate]
  have hdiv : Int.ediv (epochDays y m d * 86400000 + tz * 60000) 86400000 =
      epochDays y m d := by
    show (epochDays y m d * 86400000 + tz * 60000) / 86400000 = epochDays y m d
    omega
  rw [hdiv, civilFromDays_epochDays hy hm1 hm2 hd1 hd2]
  rfl

theorem parseDate_renderDate {tz : Int} {y m d : Nat} (htz0 : 0 ≤ tz) (htz1 : tz < 1440)
    (hy1 : 1000 ≤ y) (hy : y ≤ 9999) (hm1 : 1 ≤ m) (hm2 : m ≤ 12) (hd1 : 1 ≤ d)
    (hd2 : d ≤ daysInMonth y m) :
    parseDate tz (renderDate y m d) = some (epochDays y m d * 86400000) := by
  have hdd := dateDigits_renderDate hy1 hy (show m ≤ 99 by omega)
    (le_99_of_le_daysInMonth hm1 hm2 hd2)
  simp only [parseDate, jsDateParseIso, hdd]
  rw [if_pos ⟨hm1, hm2, hd1, hd2⟩]
  show (if formatDate tz (some (epochDays y m d * 86400000)) = renderDate y m d
      then some (epochDays y m d * 86400000) else none) = some (epochDays y m d * 86400000)
  rw [formatDate_epochDays htz0 htz1 hy hm1 hm2 hd1 hd2, if_pos rfl]

theorem decimalString_short {y : Nat} (h : y < 1000) :
    (decimalString y).data.length ≤ 3 := by
  rw [decimalString]
  split_ifs <;> first | rfl | omega | simp

/-- Inverting a successful date-shape test: the string has exactly ten
characters, the components are bounded, and for a four-digit year it is
the canonical rendering of its components. -/
theorem dateDigits_inv {s : String} {y m d : Nat} (h : dateDigits s = some (y, m, d)) :
    s.data.length = 10 ∧ y ≤ 9999 ∧ m ≤ 99 ∧ d ≤ 99 ∧
      (1000 ≤ y → s = renderDate y m d) := by
  rw [dateDigits] at h
  split at h
  case h_2 => exact absurd h (by simp)
  case h_1 a b c d4 e f g h8 heq =>
    split at h
    case isFalse => exact absurd h (by simp)
    case isTrue hdig =>
      simp only [List.all_cons, List.all_nil, Bool.and_eq_true, isDigitChar,
        decide_eq_true_eq] at hdig
      obtain ⟨⟨ha1, ha2⟩, ⟨hb1, hb2⟩, ⟨hc1, hc2⟩, ⟨hd41, hd42⟩, ⟨he1, he2⟩,
        ⟨hf1, hf2⟩, ⟨hg1, hg2⟩, ⟨hh1, hh2⟩, _⟩ := hdig
      simp only [Option.some.injEq, Prod.mk.injEq] at h
      obtain ⟨hyv, hmv, hdv⟩ := h
      have hva : digitVal a ≤ 9 := by rw [digitVal]; omega
      have hvb : digitVal b ≤ 9 := by rw [digitVal]; omega
      have hvc : digitVal c ≤ 9 := by rw [digitVal]; omega
      have hvd : digitVal d4 ≤ 9 := by rw [digitVal]; omega
      have hve : digitVal e ≤ 9 := by rw [digitVal]; omega
      have hvf : digitVal f ≤ 9 := by rw [digitVal]; omega
      have hvg : digitVal g ≤ 9 := by rw [digitVal]; omega
      have hvh : digitVal h8 ≤ 9 := by rw [digitVal]; omega
      refine ⟨by rw [heq]; rfl, by omega, by omega, by omega, ?_⟩
      intro hy1
      apply string_eq_of_data
      rw [heq, renderDate_data hy1 (by omega) (by omega) (by omega)]
      have ea : y / 1000 = digitVal a := by omega
      have eb : y / 100 % 10 = digitVal b := by omega
      have ec : y / 10 % 10 = digitVal c := by omega
      have ed : y % 10 = digitVal d4 := by omega
      have ee : m / 10 = digitVal e := by omega
      have ef : m % 10 = digitVal f := by omega
      have eg : d / 10 = digitVal g := by omega
      have eh : d % 10 = digitVal h8 := by omega
      rw [ea, eb, ec, ed, ee, ef, eg, eh,
        digitChar_digitVal ha1 ha2, digitChar_digitVal hb1 hb2,
        digitChar_digitVal hc1 hc2, digitChar_digitVal hd41 hd42,
        digitChar_digitVal he1 he2, digitChar_digitVal hf1 hf2,
        digitChar_digitVal hg1 hg2, digitChar_digitVal hh1 hh2]

/-- The resolver's `parseDate` succeeds exactly on the accepted date
strings (strict calendar dates with year at least 1000), in any
environment whose timezone offset lies in `[0, 1440)` minutes. -/
theorem parseDate_ne_none_iff {tz : Int} (htz0 : 0 ≤ tz) (htz1 : tz < 1440) (s : String) :
    (parseDate tz s ≠ none) ↔ IsAcceptedDateString s := by
  constructor
  · intro hne
    rcases hdd : dateDigits s with _ | ⟨⟨y, m, d⟩⟩
    · exact absurd (by simp [parseDate, hdd]) hne
    · obtain ⟨hlen, hy, hm99, hd99, hrender⟩ := dateDigits_inv hdd
      by_cases hvalid : 1 ≤ m ∧ m ≤ 12 ∧ 1 ≤ d ∧ d ≤ daysInMonth y m
      · by_cases hy1 : 1000 ≤ y
        · exact ⟨y, m, d, hdd, hvalid.1, hvalid.2.1, hvalid.2.2.1, hvalid.2.2.2, hy1⟩
        · exfalso
          apply hne
          have hfd : formatDate tz (some (epochDays y m d * 86400000)) = renderDate y m d :=
            formatDate_epochDays htz0 htz1 hy hvalid.1 hvalid.2.1 hvalid.2.2.1 hvalid.2.2.2
          have hpadm : (pad2 m).data.length = 2 := by rw [pad2_data hm99]; rfl
          have hpadd : (pad2 d).data.length = 2 := by rw [pad2_data hd99]; rfl
          have hds : (decimalString y).data.length ≤ 3 := decimalString_short (by omega)
          have hlen2 : (renderDate y m d).data.length ≤ 9 := by
            rw [renderDate, data_append, data_append, data_append, data_append]
            simp only [List.length_append, List.length_cons, List.length_nil, hpadm, hpadd]
            omega
          have hne2 : formatDate tz (some (epochDays y m d * 86400000)) ≠ s := by
            rw [hfd]
            intro he
            rw [he, hlen] at hlen2
            omega
          simp [parseDate, hdd, jsDateParseIso, if_pos hvalid, hne2]
      · exfalso
        apply hne
        simp [parseDate, hdd, jsDateParseIso, if_neg hvalid]
  · rintro ⟨y, m, d, hdd, hm1, hm2, hd1, hd2, hy1⟩
    obtain ⟨hlen, hy, hm99, hd99, hrender⟩ := dateDigits_inv hdd
    rw [hrender hy1, parseDate_renderDate htz0 htz1 hy1 hy hm1 hm2 hd1 hd2]
    simp

/-- C7 (amended): in an environment whose local timezone offset is in
`[0, 24h)` minutes, `calculateDateRange` fails with an invalid-format
error if and only if the provided (non-empty) `--since` or `--until`
string is not an accepted date string, i.e. not a strict `YYYY-MM-DD`
calendar date with year at least 1000.  In particular `2025-02-30` is
rejected rather than rolled over, but so is the strictly valid
`0025-01-10`. -/
theorem C7_amended_format_error_iff (tz nowMs : Int) (htz0 : 0 ≤ tz) (htz1 : tz < 1440)
    (s : String) (hs : s ≠ "") :
    (isInvalidFormatError (calculateDateRange tz nowMs (some 7) (some s) none) = true ↔
      ¬ IsAcceptedDateString s) ∧
    (isInvalidFormatError (calculateDateRange tz nowMs (some 7) none (some s)) = true ↔
      ¬ IsAcceptedDateString s) := by
  have hchar := parseDate_ne_none_iff htz0 htz1 s
  have hprov : provided (some s) = some s := by simp [provided, hs]
  constructor
  · rcases hpd : parseDate tz s with _ | ms
    · have hres : calculateDateRange tz nowMs (some 7) (some s) none =
          Except.error DateRangeError.invalidSinceFormat := by
        simp [calculateDateRange, hprov, hpd]
      have hacc : ¬ IsAcceptedDateString s := fun hacc => (hchar.mpr hacc) hpd
      rw [hres]
      simp [isInvalidFormatError, hacc]
    · have hacc : IsAcceptedDateString s := hchar.mp (by rw [hpd]; simp)
      have hres : isInvalidFormatError
          (calculateDateRange tz nowMs (some 7) (some s) none) = false := by
        have hpn : provided (none : Option String) = none := rfl
        simp only [calculateDateRange, hprov, hpd, hpn]
        split <;> rfl
      rw [hres]
      simp [hacc]
  · rcases hpd : parseDate tz s with _ | ms
    · have hres : calculateDateRange tz nowMs (some 7) none (some s) =
          Except.error DateRangeError.invalidUntilFormat := by
        have hpn : provided (none : Option String) = none := rfl
        simp [calculateDateRange, hpn, hprov, hpd]
      have hacc : ¬ IsAcceptedDateString s := fun hacc => (hchar.mpr hacc) hpd
      rw [hres]
      simp [isInvalidFormatError, hacc]
    · have hacc : IsAcceptedDateString s := hchar.mp (by rw [hpd]; simp)
      have hgt : jsDateGt (some (ms - 7 * MS_PER_DAY)) (some ms) = false := by
        simp only [jsDateGt, decide_eq_false_iff_not, MS_PER_DAY]
        omega
      have hres : isInvalidFormatError
          (calculateDateRange tz nowMs (some 7) none (some s)) = false := by
        have hpn : provided (none : Option String) = none := rfl
        simp [calculateDateRange, hpn, hprov, hpd, hgt, isInvalidFormatError]
      rw [hres]
      simp [hacc]

theorem C7_amended_format_error_iff_witness :
    (isInvalidFormatError (calculateDateRange 0 0 (some 7) (some "2025-02-30") none) = true ↔
      ¬ IsAcceptedDateString "2025-02-30") ∧
    (isInvalidFormatError (calculateDateRange 0 0 (some 7) none (some "2025-02-30")) = true ↔
      ¬ IsAcceptedDateString "2025-02-30") :=
  C7_amended_format_error_iff 0 0 (by decide) (by decide) "2025-02-30" (by decide)

/-- C1 (amended): for any two accepted date labels in order, the resolved
window's `until` instant is UTC midnight at the START of the until day
(`epochDays · * 86400000` ms), and this is the bound the scanner's
activity test compares against; `getUserCommits` separately recomputes a
larger bound, local 23:59:59 of the until day, so the scanner's upper
bound is strictly below the classifier's. -/
theorem C1_amended_bounds (tz nowMs : Int) (y1 m1 d1 y2 m2 d2 : Nat)
    (htz0 : 0 ≤ tz) (htz1 : tz < 1440)
    (hy11 : 1000 ≤ y1) (hy12 : y1 ≤ 9999) (hm11 : 1 ≤ m1) (hm12 : m1 ≤ 12)
    (hd11 : 1 ≤ d1) (hd12 : d1 ≤ daysInMonth y1 m1)
    (hy21 : 1000 ≤ y2) (hy22 : y2 ≤ 9999) (hm21 : 1 ≤ m2) (hm22 : m2 ≤ 12)
    (hd21 : 1 ≤ d2) (hd22 : d2 ≤ daysInMonth y2 m2)
    (horder : epochDays y1 m1 d1 ≤ epochDays y2 m2 d2) :
    calculateDateRange tz nowMs none
        (some (renderDate y1 m1 d1)) (some (renderDate y2 m2 d2)) =
      Except.ok { since := some (epochDays y1 m1 d1 * 86400000),
                  untl := some (epochDays y2 m2 d2 * 86400000),
                  sinceStr := renderDate y1 m1 d1,
                  untilStr := renderDate y2 m2 d2 } ∧
    getUserCommitsSinceTs (renderDate y1 m1 d1) =
      some (epochDays y1 m1 d1 * 86400) ∧
    getUserCommitsUntilTs tz (renderDate y2 m2 d2) =
      some (epochDays y2 m2 d2 * 86400 + 86399 - tz * 60) ∧
    epochDays y2 m2 d2 * 86400000 <
      (epochDays y2 m2 d2 * 86400 + 86399 - tz * 60) * 1000 := by
  have hm199 : m1 ≤ 99 := by omega
  have hm299 : m2 ≤ 99 := by omega
  have hd199 := le_99_of_le_daysInMonth hm11 hm12 hd12
  have hd299 := le_99_of_le_daysInMonth hm21 hm22 hd22
  have hlen1 := renderDate_data hy11 hy12 hm199 hd199
  have hlen2 := renderDate_data hy21 hy22 hm299 hd299
  have hne1 : renderDate y1 m1 d1 ≠ "" := by
    intro h
    rw [h] at hlen1
    exact absurd hlen1 (by simp)
  have hne2 : renderDate y2 m2 d2 ≠ "" := by
    intro h
    rw [h] at hlen2
    exact absurd hlen2 (by simp)
  have hp1 := parseDate_renderDate htz0 htz1 hy11 hy12 hm11 hm12 hd11 hd12
  have hp2 := parseDate_renderDate htz0 htz1 hy21 hy22 hm21 hm22 hd21 hd22
  have hf1 := formatDate_epochDays htz0 htz1 hy12 hm11 hm12 hd11 hd12
  have hf2 := formatDate_epochDays htz0 htz1 hy22 hm21 hm22 hd21 hd22
  have hgt : jsDateGt (some (epochDays y1 m1 d1 * 86400000))
      (some (epochDays y2 m2 d2 * 86400000)) = false := by
    simp only [jsDateGt, decide_eq_false_iff_not]
    omega
  have hdd1 := dateDigits_renderDate hy11 hy12 hm199 hd199
  have hdd2 := dateDigits_renderDate hy21 hy22 hm299 hd299
  refine ⟨?_, ?_, ?_, ?_⟩
  · simp only [calculateDateRange, provided, if_neg hne1, if_neg hne2, hp1, hp2, hgt,
      Bool.false_eq_true, if_false, hf1, hf2]
  · simp only [getUserCommitsSinceTs, jsDateParseIso, hdd1]
    rw [if_pos ⟨hm11, hm12, hd11, hd12⟩]
    show some (Int.ediv (epochDays y1 m1 d1 * 86400000) 1000) = _
    have hq : Int.ediv (epochDays y1 m1 d1 * 86400000) 1000 =
        epochDays y1 m1 d1 * 86400 := by
      show epochDays y1 m1 d1 * 86400000 / 1000 = epochDays y1 m1 d1 * 86400
      omega
    rw [hq]
  · simp only [getUserCommitsUntilTs, jsDateParseLocalEndOfDay, hdd2]
    rw [if_pos ⟨hm21, hm22, hd21, hd22⟩]
    show some (Int.ediv (epochDays y2 m2 d2 * 86400000 + 86399000 - tz * 60000) 1000) = _
    have hq : Int.ediv (epochDays y2 m2 d2 * 86400000 + 86399000 - tz * 60000) 1000 =
        epochDays y2 m2 d2 * 86400 + 86399 - tz * 60 := by
      show (epochDays y2 m2 d2 * 86400000 + 86399000 - tz * 60000) / 1000 =
        epochDays y2 m2 d2 * 86400 + 86399 - tz * 60
      omega
    rw [hq]
  · omega

theorem C1_amended_bounds_witness :
    calculateDateRange 0 0 none (some (renderDate 2025 1 10)) (some (renderDate 2025 1 20)) =
      Except.ok { since := some (epochDays 2025 1 10 * 86400000),
                  untl := some (epochDays 2025 1 20 * 86400000),
                  sinceStr := renderDate 2025 1 10,
                  untilStr := renderDate 2025 1 20 } ∧
    getUserCommitsSinceTs (renderDate 2025 1 10) = some (epochDays 2025 1 10 * 86400) ∧
    getUserCommitsUntilTs 0 (renderDate 2025 1 20) =
      some (epochDays 2025 1 20 * 86400 + 86399 - 0 * 60) ∧
    epochDays 2025 1 20 * 86400000 <
      (epochDays 2025 1 20 * 86400 + 86399 - 0 * 60) * 1000 :=
  C1_amended_bounds 0 0 2025 1 10 2025 1 20 (by decide) (by decide) (by decide) (by decide)
    (by decide) (by decide) (by decide) (by decide) (by decide) (by decide) (by decide)
    (by decide) (by decide) (by decide) (by decide)

end GitDid
